import Mathlib

/-!
Verification of the study04 periodic-resonance-map analysis engines.

This file is a shallow embedding of the repository's Python modules
(`study04/topology_engine.py`, `study04/resonant_engine.py`,
`study04/analysis.py`, `study04/null_models.py`, `study04/data.py`)
over the rationals, together with theorems settling the spec claims.

Conventions used throughout:
* machine floats become `ℚ`; exact decimal constants are transcribed as
  exact rationals (`0.2 = 1/5`, `1e-6 = 1/1000000`, ...);
* a float `NaN` produced by a missing value (pandas `NaN`) is modelled as
  `Option.none`; each definition states in a comment which sentinel its
  `none` stands for (`NaN` or `+∞`), mirroring the float semantics of the
  line of Python it embeds (in particular `NaN < x`, `NaN <= x` and
  `x < NaN` are all false);
* Python `None` and float `NaN` are distinguished where the source
  distinguishes them (`PyVal` below);
* external library calls whose internals the spec puts out of scope
  (scipy's rank test, sklearn's cross-validated probabilities, numpy's
  PCG64 random stream) are parameters of the embedding: they are
  deterministic functions supplied to the definitions, so every claim is
  proved for an arbitrary such collaborator.
-/

namespace Study04

/-- A Python "float or None" value as it flows through `null_models.py`:
`pynone` is Python `None`, `nan` is float NaN, `fin q` a finite float. -/
inductive PyVal where
  | pynone : PyVal
  | nan : PyVal
  | fin : ℚ → PyVal
deriving DecidableEq

/-- The finite payload of a `PyVal`, if any. -/
def PyVal.toQ : PyVal → Option ℚ
  | .fin q => some q
  | _ => none

/-- `np.clip(x, 0.0, 1.0)` on a finite float. -/
def clip01 (x : ℚ) : ℚ := min (max x 0) 1

/-- Sum of the four components of a fingerprint vector (`np.sum` /
`np.dot` over the fixed 4-vectors of this code base, written out). -/
def sum4 (v : Fin 4 → ℚ) : ℚ := v 0 + v 1 + v 2 + v 3

/-! ## `topology_engine.py` -/

/-- A topology archetype (`Topology` dataclass in `topology_engine.py`).
`w` is the weight vector after the catalog loader's normalization. -/
structure Topology where
  topology_id : String
  name : String
  n_nodes : ℤ
  w : Fin 4 → ℚ
  noise_sensitivity : ℚ

/-- `normalize_primes` (`topology_engine.py:47-53`): take absolute values
of the four components, sum them, return the uniform vector when the sum
is non-positive, otherwise divide by the sum.

A missing component is float NaN: `np.sum` then yields NaN, the guard
`s <= 0` is false on NaN, and `vec / s` is the all-NaN vector; hence the
`none` branch below returns `none` in every component. -/
def normalize_primes (input : Fin 4 → Option ℚ) : Fin 4 → Option ℚ :=
  if _h : ∀ i, (input i).isSome then
    let s := sum4 (fun i => |(input i).getD 0|)
    if s ≤ 0 then fun _ => some (1/4)
    else fun i => some (|(input i).getD 0| / s)
  else fun _ => none

/-- The all-`NaN` 4-component input, used as a concrete test vector. -/
def allMissing : Fin 4 → Option ℚ := fun _ => none

theorem normalize_primes_allMissing :
    normalize_primes allMissing = fun _ => none := by
  unfold normalize_primes
  rw [dif_neg]
  intro h
  simpa [allMissing] using h 0

/-- C4, counterexample: on the all-missing input the normalizer does NOT
return the uniform vector `(0.25, 0.25, 0.25, 0.25)`; it returns the
all-NaN (undefined) vector, because the float sum of an all-NaN vector is
NaN and `NaN <= 0` is false. -/
theorem C4_counterexample :
    normalize_primes allMissing ≠ (fun _ => some (1/4 : ℚ)) ∧
    normalize_primes allMissing 0 = none := by
  refine ⟨?_, ?_⟩
  · intro hEq
    have h0 := congrFun hEq 0
    rw [normalize_primes_allMissing] at h0
    simp at h0
  · rw [normalize_primes_allMissing]

/-- C4, amended: for a fully observed input with positive absolute-value
sum the output is a non-negative vector summing to exactly 1, and with
non-positive sum it is exactly the uniform vector; but when any component
is missing (in particular when all are missing) every output component is
undefined (NaN), not the uniform vector. -/
theorem C4_normalize_primes_amended (input : Fin 4 → Option ℚ) :
    ((∀ i, (input i).isSome) →
      (0 < sum4 (fun i => |(input i).getD 0|) →
        (∀ i, ∃ w, normalize_primes input i = some w ∧ 0 ≤ w) ∧
        sum4 (fun i => (normalize_primes input i).getD 0) = 1) ∧
      (sum4 (fun i => |(input i).getD 0|) ≤ 0 →
        normalize_primes input = fun _ => some (1/4))) ∧
    ((∃ i, input i = none) → ∀ i, normalize_primes input i = none) := by
  constructor
  · intro hAll
    constructor
    · intro hPos
      have hne : sum4 (fun i => |(input i).getD 0|) ≠ 0 := ne_of_gt hPos
      have hbranch : normalize_primes input =
          fun i => some (|(input i).getD 0| / sum4 (fun j => |(input j).getD 0|)) := by
        unfold normalize_primes
        rw [dif_pos hAll, if_neg (not_le.mpr hPos)]
      constructor
      · intro i
        rw [hbranch]
        exact ⟨_, rfl, div_nonneg (abs_nonneg _) (le_of_lt hPos)⟩
      · rw [hbranch]
        show sum4 (fun i => |(input i).getD 0| / sum4 (fun j => |(input j).getD 0|)) = 1
        unfold sum4
        field_simp
        unfold sum4 at hne
        exact div_self hne
    · intro hNP
      unfold normalize_primes
      rw [dif_pos hAll, if_pos hNP]
  · intro ⟨i, hi⟩ j
    unfold normalize_primes
    rw [dif_neg]
    intro h
    have := h i
    rw [hi] at this
    simp at this

theorem C4_normalize_primes_amended_witness :
    (∀ i, normalize_primes (fun _ => some 2) i = some (1/4 : ℚ) → True) ∧
    sum4 (fun i => (normalize_primes (fun _ => some 2) i).getD 0) = 1 ∧
    (∀ i, normalize_primes (fun k => if k = 0 then none else some 1) i = none) := by
  refine ⟨fun _ _ => trivial, ?_, ?_⟩
  · exact (((C4_normalize_primes_amended (fun _ => some 2)).1
      (by intro i; rfl)).1 (by norm_num [sum4])).2
  · exact (C4_normalize_primes_amended (fun k => if k = 0 then none else some 1)).2
      ⟨0, rfl⟩

/-! ## The best-tracking loop

Both cost engines track a running best with
`if best is None or cost < best: best selected`.  The fold below is that
loop; `cmp` is the float `<` (its behaviour on the NaN/∞ sentinels is
supplied per engine). -/

/-- Float `<` where `none` stands for NaN: every comparison involving NaN
is false. -/
def nanLt : Option ℚ → Option ℚ → Bool
  | some a, some b => decide (a < b)
  | _, _ => false

/-- Float `<` where `none` stands for `+∞` (the `float("inf")` sentinel of
`_fit_amplitude`). -/
def infLt : Option ℚ → Option ℚ → Bool
  | some a, some b => decide (a < b)
  | some _, none => true
  | none, _ => false

/-- One iteration of `if best is None or cost < best: best = (payload, cost)`. -/
def bestStep {α : Type} (cmp : Option ℚ → Option ℚ → Bool)
    (acc : Option (α × Option ℚ)) (p : α × Option ℚ) : Option (α × Option ℚ) :=
  match acc with
  | none => some p
  | some b => if cmp p.2 b.2 then some p else some b

/-- The whole best-tracking loop over the catalog-ordered cost list. -/
def bestFold {α : Type} (cmp : Option ℚ → Option ℚ → Bool)
    (l : List (α × Option ℚ)) : Option (α × Option ℚ) :=
  l.foldl (bestStep cmp) none

/-- Reference single step on finite costs: keep the incumbent on ties. -/
def keepMin {α : Type} (b p : α × ℚ) : α × ℚ := if p.2 < b.2 then p else b

/-- A pair with a finite cost, as the engines see it. -/
def liftP {α : Type} (p : α × ℚ) : α × Option ℚ := (p.1, some p.2)

theorem bestFold_go {α : Type} (cmp : Option ℚ → Option ℚ → Bool)
    (hc : ∀ a b, cmp (some a) (some b) = decide (a < b))
    (vals : List (α × ℚ)) (b : α × ℚ) :
    (vals.map liftP).foldl (bestStep cmp) (some (liftP b)) =
      some (liftP (vals.foldl keepMin b)) := by
  induction vals generalizing b with
  | nil => rfl
  | cons p t ih =>
    have hstep : bestStep cmp (some (liftP b)) (liftP p) = some (liftP (keepMin b p)) := by
      show (if cmp (some p.2) (some b.2) then some (liftP p) else some (liftP b)) = _
      rw [hc]
      by_cases hlt : p.2 < b.2
      · simp [hlt, keepMin]
      · simp [hlt, keepMin]
    simpa [List.foldl_cons, hstep] using ih (keepMin b p)

theorem bestFold_cons {α : Type} (cmp : Option ℚ → Option ℚ → Bool)
    (hc : ∀ a b, cmp (some a) (some b) = decide (a < b))
    (h : α × ℚ) (t : List (α × ℚ)) :
    bestFold cmp ((h :: t).map liftP) = some (liftP (t.foldl keepMin h)) := by
  show (t.map liftP).foldl (bestStep cmp) (bestStep cmp none (liftP h)) = _
  exact bestFold_go cmp hc t h

/-- The loop's result is the first global minimum of the cost list: it
splits the list as `pre ++ best :: post`, is `≤` every entry, and every
entry strictly before it is strictly more costly. -/
theorem foldl_keepMin_spec {α : Type} (t : List (α × ℚ)) (h : α × ℚ) :
    ∃ pre post, h :: t = pre ++ (t.foldl keepMin h) :: post ∧
      (∀ p ∈ h :: t, (t.foldl keepMin h).2 ≤ p.2) ∧
      (∀ p ∈ pre, (t.foldl keepMin h).2 < p.2) := by
  induction t generalizing h with
  | nil =>
    refine ⟨[], [], rfl, ?_, by simp⟩
    intro p hp
    rw [List.mem_singleton] at hp
    exact hp ▸ le_refl _
  | cons q t ih =>
    rw [List.foldl_cons]
    by_cases hlt : q.2 < h.2
    · have hk : keepMin h q = q := by simp [keepMin, hlt]
      rw [hk]
      obtain ⟨pre, post, hsplit, hmin, hstrict⟩ := ih q
      refine ⟨h :: pre, post, ?_, ?_, ?_⟩
      · rw [List.cons_append, ← hsplit]
      · intro p hp
        rcases List.mem_cons.mp hp with rfl | hp'
        · exact le_of_lt (lt_of_le_of_lt (hmin q (List.mem_cons_self _ _)) hlt)
        · exact hmin p hp'
      · intro p hp
        rcases List.mem_cons.mp hp with rfl | hp'
        · exact lt_of_le_of_lt (hmin q (List.mem_cons_self _ _)) hlt
        · exact hstrict p hp'
    · have hk : keepMin h q = h := by simp [keepMin, hlt]
      rw [hk]
      have hle : h.2 ≤ q.2 := le_of_not_lt hlt
      obtain ⟨pre, post, hsplit, hmin, hstrict⟩ := ih h
      cases pre with
      | nil =>
        rw [List.nil_append] at hsplit
        have hhd : t.foldl keepMin h = h := (List.cons.injEq _ _ _ _).mp hsplit |>.1.symm
        have htl : t = post := (List.cons.injEq _ _ _ _).mp hsplit |>.2
        refine ⟨[], q :: post, ?_, ?_, by simp⟩
        · rw [List.nil_append, hhd, htl]
        · intro p hp
          rcases List.mem_cons.mp hp with rfl | hp'
          · exact le_refl _ |>.trans (by rw [hhd])
          · rcases List.mem_cons.mp hp' with rfl | hp''
            · rw [hhd]; exact hle
            · exact hmin p (List.mem_cons_of_mem _ hp'')
      | cons a pre' =>
        rw [List.cons_append] at hsplit
        have hhd : a = h := ((List.cons.injEq _ _ _ _).mp hsplit).1.symm
        have htl : t = pre' ++ (t.foldl keepMin h) :: post :=
          ((List.cons.injEq _ _ _ _).mp hsplit).2
        have hmemh : h ∈ a :: pre' := by rw [hhd]; exact List.mem_cons_self _ _
        refine ⟨h :: q :: pre', post, ?_, ?_, ?_⟩
        · rw [List.cons_append, List.cons_append, ← htl]
        · intro p hp
          rcases List.mem_cons.mp hp with rfl | hp'
          · exact hmin p (List.mem_cons_self _ _)
          · rcases List.mem_cons.mp hp' with rfl | hp''
            · exact le_of_lt (lt_of_lt_of_le (hstrict h hmemh) hle)
            · exact hmin p (List.mem_cons_of_mem _ hp'')
        · intro p hp
          rcases List.mem_cons.mp hp with rfl | hp'
          · exact hstrict p hmemh
          · rcases List.mem_cons.mp hp' with rfl | hp''
            · exact lt_of_lt_of_le (hstrict h hmemh) hle
            · exact hstrict p (List.mem_cons_of_mem a hp'')

/-- Packaged form: on a non-empty list of finite costs, the loop returns
the earliest entry attaining the global minimum. -/
theorem bestFold_firstMin {α : Type} (cmp : Option ℚ → Option ℚ → Bool)
    (hc : ∀ a b, cmp (some a) (some b) = decide (a < b))
    (vals : List (α × ℚ)) (hne : vals ≠ []) :
    ∃ best pre post, bestFold cmp (vals.map liftP) = some (liftP best) ∧
      vals = pre ++ best :: post ∧
      (∀ p ∈ vals, best.2 ≤ p.2) ∧
      (∀ p ∈ pre, best.2 < p.2) := by
  match vals, hne with
  | h :: t, _ =>
    obtain ⟨pre, post, hsplit, hmin, hstrict⟩ := foldl_keepMin_spec t h
    exact ⟨t.foldl keepMin h, pre, post, bestFold_cons cmp hc h t, hsplit, hmin, hstrict⟩

/-! ## Simple cost formulation (`aggregate_costs`) -/

/-- A row of the aggregated carrier table consumed by `aggregate_costs`
(columns read by `topology_engine.py`); `none` is a pandas NaN cell. -/
structure SimpleRow where
  carrier_element : Option String
  block : Option String
  n_materials : Option ℚ
  carrier_group : Option ℚ
  carrier_period : Option ℚ
  carrier_Z : Option ℚ
  abs_mean : Fin 4 → Option ℚ
  delta_N_median : Option ℚ
  xi_ext_median : Option ℚ

/-- `compute_ce` (`topology_engine.py:56-57`): squared Euclidean distance
between the normalized fingerprint and the topology weight vector
(`np.linalg.norm(vec - w) ** 2` = the sum of squared differences).  A NaN
component propagates to a NaN cost. -/
def compute_ce (vec : Fin 4 → Option ℚ) (topo : Topology) : Option ℚ :=
  if ∀ i, (vec i).isSome then
    some (sum4 (fun i => ((vec i).getD 0 - topo.w i) ^ 2))
  else none

/-- `(column.dropna().min(), span)` for the `delta_N_median` /
`xi_ext_median` normalisation in `aggregate_costs` (lines 70-75), with
`span = max(max − min, 1e-6)`.  `none` is the NaN produced by pandas on an
all-NaN column; that NaN span is never consulted, because a row reaches it
only when its own median is present, which makes the column non-empty. -/
def col_stats (vals : List ℚ) : Option (ℚ × ℚ) :=
  match vals.min?, vals.max? with
  | some mn, some mx => some (mn, max (mx - mn) (1/1000000))
  | _, _ => none

/-- Per-row `Q_lock` (`aggregate_costs` lines 79-85): 0 on a NaN median,
otherwise `1 − (δ − δmin)/δspan` clipped to `[0,1]`.  The `some _, none`
case is the unreachable NaN-span state discussed at `col_stats`. -/
def q_lock_simple (dstats : Option (ℚ × ℚ)) (delta_N : Option ℚ) : ℚ :=
  match delta_N, dstats with
  | none, _ => 0
  | some d, some (mn, span) => clip01 (1 - (d - mn) / span)
  | some _, none => 0

/-- Per-row `xi_norm` (`aggregate_costs` lines 86-90): 0 on a NaN median,
otherwise `(ξ − ξmin)/ξspan` clipped to `[0,1]`. -/
def xi_norm_simple (xstats : Option (ℚ × ℚ)) (xi_ext : Option ℚ) : ℚ :=
  match xi_ext, xstats with
  | none, _ => 0
  | some x, some (mn, span) => clip01 ((x - mn) / span)
  | some _, none => 0

/-- `C_xi` for one carrier/topology pair (`aggregate_costs` line 99). -/
def c_xi_simple (use_noise : Bool) (xi_norm q_lock : ℚ) (topo : Topology) : ℚ :=
  if use_noise then xi_norm * topo.noise_sensitivity * (1 - q_lock) else 0

/-- `C_total` for one carrier/topology pair (`aggregate_costs` line 100):
`C_e + λ·C_xi`, or `C_e` alone when the noise term is disabled; NaN
(`none`) in `C_e` propagates. -/
def c_total_simple (use_noise : Bool) (lambda_noise : ℚ) (c_e : Option ℚ) (c_xi : ℚ) :
    Option ℚ :=
  if use_noise then c_e.map (fun ce => ce + lambda_noise * c_xi) else c_e

/-- One row of the auxiliary score table (`records` in `aggregate_costs`). -/
structure ScoreRec where
  carrier_element : Option String
  block : Option String
  n_materials : Option ℚ
  topology_id : String
  C_e : Option ℚ
  C_xi : ℚ
  C_total : Option ℚ
  Q_lock : ℚ
  xi_norm : ℚ
deriving DecidableEq, Inhabited

/-- One row of the per-carrier best-assignment table
(`per_carrier_best` in `aggregate_costs`).  In `C_e_min` / `C_total_min`
the `none` covers both the initial Python `None` (empty catalog) and a
NaN minimum. -/
structure SimpleBestRec where
  carrier_element : Option String
  block : Option String
  group : Option ℚ
  period : Option ℚ
  Z : Option ℚ
  n_materials : Option ℚ
  Q_lock : ℚ
  xi_norm : ℚ
  best_topology_e_only : Option String
  C_e_min : Option ℚ
  best_topology : Option String
  C_total_min : Option ℚ
deriving DecidableEq

/-- The score-table rows one carrier row contributes (`records.append`
in the inner loop of `aggregate_costs`). -/
def simpleRowScores (dstats xstats : Option (ℚ × ℚ)) (lambda_noise : ℚ)
    (use_noise : Bool) (catalog : List Topology) (row : SimpleRow) : List ScoreRec :=
  catalog.map (fun topo =>
    { carrier_element := row.carrier_element
      block := row.block
      n_materials := row.n_materials
      topology_id := topo.topology_id
      C_e := compute_ce (normalize_primes row.abs_mean) topo
      C_xi := c_xi_simple use_noise (xi_norm_simple xstats row.xi_ext_median)
        (q_lock_simple dstats row.delta_N_median) topo
      C_total := c_total_simple use_noise lambda_noise
        (compute_ce (normalize_primes row.abs_mean) topo)
        (c_xi_simple use_noise (xi_norm_simple xstats row.xi_ext_median)
          (q_lock_simple dstats row.delta_N_median) topo)
      Q_lock := q_lock_simple dstats row.delta_N_median
      xi_norm := xi_norm_simple xstats row.xi_ext_median })

/-- The catalog-ordered `C_e` cost pairs for one carrier row. -/
def ePairs (row : SimpleRow) (catalog : List Topology) : List (String × Option ℚ) :=
  catalog.map (fun topo =>
    (topo.topology_id, compute_ce (normalize_primes row.abs_mean) topo))

/-- The catalog-ordered `C_total` cost pairs for one carrier row. -/
def tPairs (dstats xstats : Option (ℚ × ℚ)) (lambda_noise : ℚ) (use_noise : Bool)
    (row : SimpleRow) (catalog : List Topology) : List (String × Option ℚ) :=
  catalog.map (fun topo =>
    (topo.topology_id, c_total_simple use_noise lambda_noise
      (compute_ce (normalize_primes row.abs_mean) topo)
      (c_xi_simple use_noise (xi_norm_simple xstats row.xi_ext_median)
        (q_lock_simple dstats row.delta_N_median) topo)))

/-- The per-carrier best record (the two `if best is None or cost < best`
chains of `aggregate_costs`, lines 116-121; the two accumulators are
updated independently in the same loop, so they are two `bestFold`s over
the same catalog order). -/
def simpleRowBest (dstats xstats : Option (ℚ × ℚ)) (lambda_noise : ℚ)
    (use_noise : Bool) (catalog : List Topology) (row : SimpleRow) : SimpleBestRec :=
  { carrier_element := row.carrier_element
    block := row.block
    group := row.carrier_group
    period := row.carrier_period
    Z := row.carrier_Z
    n_materials := row.n_materials
    Q_lock := q_lock_simple dstats row.delta_N_median
    xi_norm := xi_norm_simple xstats row.xi_ext_median
    best_topology_e_only := (bestFold nanLt (ePairs row catalog)).map (fun p => p.1)
    C_e_min := (bestFold nanLt (ePairs row catalog)).bind (fun p => p.2)
    best_topology :=
      (bestFold nanLt (tPairs dstats xstats lambda_noise use_noise row catalog)).map
        (fun p => p.1)
    C_total_min :=
      (bestFold nanLt (tPairs dstats xstats lambda_noise use_noise row catalog)).bind
        (fun p => p.2) }

/-- `aggregate_costs` (`topology_engine.py:60-142`): the full score table
and the per-carrier best table. -/
def aggregate_costs (rows : List SimpleRow) (catalog : List Topology)
    (lambda_noise : ℚ) (use_noise : Bool) : List ScoreRec × List SimpleBestRec :=
  let dstats := col_stats (rows.filterMap (fun r => r.delta_N_median))
  let xstats := col_stats (rows.filterMap (fun r => r.xi_ext_median))
  ((rows.map (simpleRowScores dstats xstats lambda_noise use_noise catalog)).flatten,
   rows.map (simpleRowBest dstats xstats lambda_noise use_noise catalog))

/-! ### Sign facts for the simple cost terms (claim C3) -/

theorem clip01_nonneg (x : ℚ) : 0 ≤ clip01 x := le_min (le_max_right x 0) zero_le_one

theorem clip01_le_one (x : ℚ) : clip01 x ≤ 1 := min_le_right _ _

theorem q_lock_simple_mem (dstats : Option (ℚ × ℚ)) (d : Option ℚ) :
    0 ≤ q_lock_simple dstats d ∧ q_lock_simple dstats d ≤ 1 := by
  unfold q_lock_simple
  match d, dstats with
  | none, _ => exact ⟨le_refl 0, zero_le_one⟩
  | some d, some (mn, span) => exact ⟨clip01_nonneg _, clip01_le_one _⟩
  | some _, none => exact ⟨le_refl 0, zero_le_one⟩

theorem xi_norm_simple_mem (xstats : Option (ℚ × ℚ)) (x : Option ℚ) :
    0 ≤ xi_norm_simple xstats x ∧ xi_norm_simple xstats x ≤ 1 := by
  unfold xi_norm_simple
  match x, xstats with
  | none, _ => exact ⟨le_refl 0, zero_le_one⟩
  | some x, some (mn, span) => exact ⟨clip01_nonneg _, clip01_le_one _⟩
  | some _, none => exact ⟨le_refl 0, zero_le_one⟩

theorem sum4_nonneg (v : Fin 4 → ℚ) (h : ∀ i, 0 ≤ v i) : 0 ≤ sum4 v := by
  unfold sum4
  have := h 0; have := h 1; have := h 2; have := h 3
  linarith

theorem compute_ce_nonneg (vec : Fin 4 → Option ℚ) (topo : Topology) (ce : ℚ)
    (h : compute_ce vec topo = some ce) : 0 ≤ ce := by
  unfold compute_ce at h
  by_cases hall : ∀ i, (vec i).isSome
  · rw [if_pos hall] at h
    have hval := Option.some.injEq _ _ ▸ h
    have : sum4 (fun i => ((vec i).getD 0 - topo.w i) ^ 2) = ce := by
      simpa using h
    rw [← this]
    exact sum4_nonneg _ (fun i => sq_nonneg _)
  · rw [if_neg hall] at h
    exact absurd h (by simp)

/-- A two-row demo table and a one-topology demo catalog used as concrete
test inputs below. -/
def demoTopo : Topology :=
  { topology_id := "T", name := "T", n_nodes := 1, w := fun _ => 1/4,
    noise_sensitivity := 1 }

def demoRow1 : SimpleRow :=
  { carrier_element := some "A", block := some "d", n_materials := some 1,
    carrier_group := none, carrier_period := none, carrier_Z := none,
    abs_mean := fun _ => some 1, delta_N_median := some 0, xi_ext_median := some 0 }

def demoRow2 : SimpleRow :=
  { carrier_element := some "B", block := some "p", n_materials := some 1,
    carrier_group := none, carrier_period := none, carrier_Z := none,
    abs_mean := fun _ => some 1, delta_N_median := some 1, xi_ext_median := some 1 }

/-- The score row that refutes claim C3 (second demo row at
`lambda_noise = -1`). -/
def badScoreC3 : ScoreRec :=
  { carrier_element := some "B", block := some "p", n_materials := some 1,
    topology_id := "T", C_e := some 0, C_xi := 1, C_total := some (-1),
    Q_lock := 0, xi_norm := 1 }

/-- C3, counterexample: with the hyperparameter `lambda_noise = -1` (the
claim quantifies over all hyperparameter values) the demo table produces
a score row with `C_e = 0` but `C_total = -1`, so `C_total ≥ C_e ≥ 0`
fails: the noise term subtracts from the fingerprint cost. -/
theorem C3_counterexample :
    ¬ (∀ rec ∈ (aggregate_costs [demoRow1, demoRow2] [demoTopo] (-1) true).1,
        ∀ ce ct : ℚ, rec.C_e = some ce → rec.C_total = some ct → 0 ≤ ce ∧ ce ≤ ct) := by
  intro h
  have hmem : badScoreC3 ∈ (aggregate_costs [demoRow1, demoRow2] [demoTopo] (-1) true).1 := by
    have hval : (aggregate_costs [demoRow1, demoRow2] [demoTopo] (-1) true).1 =
        [{ carrier_element := some "A", block := some "d", n_materials := some 1,
           topology_id := "T", C_e := some 0, C_xi := 0, C_total := some 0,
           Q_lock := 1, xi_norm := 0 }, badScoreC3] := by
      norm_num [aggregate_costs, simpleRowScores, col_stats, List.min?, List.max?,
        min_def, max_def, q_lock_simple, xi_norm_simple, c_xi_simple, c_total_simple,
        compute_ce, normalize_primes, clip01, sum4, demoRow1, demoRow2, demoTopo,
        badScoreC3, List.filterMap]
    rw [hval]
    simp
  have hcontra := h _ hmem 0 (-1) rfl rfl
  norm_num at hcontra

/-- C3, amended: `C_e ≥ 0` always holds (whenever the cost is defined at
all), and under the additional hypotheses that `lambda_noise` and every
catalog entry's `noise_sensitivity` are non-negative — true of the shipped
defaults, but not of every hyperparameter value — `C_xi ≥ 0` and
`C_total ≥ C_e` hold as well. -/
theorem C3_simple_costs_amended (rows : List SimpleRow) (catalog : List Topology)
    (lambda_noise : ℚ) (use_noise : Bool)
    (hl : 0 ≤ lambda_noise)
    (hs : ∀ topo ∈ catalog, 0 ≤ topo.noise_sensitivity) :
    ∀ rec ∈ (aggregate_costs rows catalog lambda_noise use_noise).1,
      (∀ ce, rec.C_e = some ce → 0 ≤ ce) ∧
      0 ≤ rec.C_xi ∧
      (∀ ce, rec.C_e = some ce → ∃ ct, rec.C_total = some ct ∧ ce ≤ ct) := by
  intro rec hrec
  unfold aggregate_costs at hrec
  obtain ⟨l, hl', hrecl⟩ := List.mem_flatten.mp hrec
  obtain ⟨row, hrow, rfl⟩ := List.mem_map.mp hl'
  unfold simpleRowScores at hrecl
  obtain ⟨topo, htopo, rfl⟩ := List.mem_map.mp hrecl
  dsimp only
  have hxi : 0 ≤ c_xi_simple use_noise
      (xi_norm_simple (col_stats (rows.filterMap (fun r => r.xi_ext_median)))
        row.xi_ext_median)
      (q_lock_simple (col_stats (rows.filterMap (fun r => r.delta_N_median)))
        row.delta_N_median) topo := by
    unfold c_xi_simple
    cases use_noise with
    | false => exact le_refl 0
    | true =>
      simp only [if_true]
      have h1 : 0 ≤ xi_norm_simple (col_stats (rows.filterMap (fun r => r.xi_ext_median)))
          row.xi_ext_median * topo.noise_sensitivity :=
        mul_nonneg (xi_norm_simple_mem _ _).1 (hs topo htopo)
      have h2 : (0:ℚ) ≤ 1 - q_lock_simple
          (col_stats (rows.filterMap (fun r => r.delta_N_median))) row.delta_N_median := by
        have := (q_lock_simple_mem (col_stats (rows.filterMap
          (fun r => r.delta_N_median))) row.delta_N_median).2
        linarith
      exact mul_nonneg h1 h2
  refine ⟨?_, hxi, ?_⟩
  · intro ce hce
    exact compute_ce_nonneg _ _ _ hce
  · intro ce hce
    unfold c_total_simple
    cases use_noise with
    | false => exact ⟨ce, hce, le_refl ce⟩
    | true =>
      refine ⟨ce + lambda_noise * c_xi_simple true
        (xi_norm_simple (col_stats (rows.filterMap (fun r => r.xi_ext_median)))
          row.xi_ext_median)
        (q_lock_simple (col_stats (rows.filterMap (fun r => r.delta_N_median)))
          row.delta_N_median) topo, ?_, ?_⟩
      · rw [hce]
        rfl
      · have := mul_nonneg hl hxi
        linarith

theorem C3_simple_costs_amended_witness :
    0 ≤ ((aggregate_costs [demoRow1] [demoTopo] (1/2) true).1.headD default).C_xi := by
  refine (C3_simple_costs_amended [demoRow1] [demoTopo] (1/2) true (by norm_num)
    (by intro t ht; rw [List.mem_singleton] at ht; subst ht; norm_num [demoTopo])
    _ ?_).2.1
  have hval : (aggregate_costs [demoRow1] [demoTopo] (1/2) true).1 =
      [{ carrier_element := some "A", block := some "d", n_materials := some 1,
         topology_id := "T", C_e := some 0, C_xi := 0, C_total := some 0,
         Q_lock := 1, xi_norm := 0 }] := by
    norm_num [aggregate_costs, simpleRowScores, col_stats, List.min?, List.max?,
      min_def, max_def, q_lock_simple, xi_norm_simple, c_xi_simple, c_total_simple,
      compute_ce, normalize_primes, clip01, sum4, demoRow1, demoTopo, List.filterMap]
  rw [hval]
  simp

/-! ## Richer (resonant) cost formulation (`resonant_engine.py`) -/

/-- Per-topology complexity heuristic (the `COMPLEXITY` dict, read with
`.get(topo_id, 1.0)`). -/
def COMPLEXITY (tid : String) : ℚ :=
  if tid = "BIN_DIPOLE" then 1/5
  else if tid = "TRI_RING" then 2/5
  else if tid = "TETRA_PACK" then 3/5
  else if tid = "PENTA_FLOWER" then 4/5
  else if tid = "HEPTA_FLOWER" then 1
  else 1

/-- Per-topology N-scale heuristic (the `N_SCALE` dict, read with
`.get(topo_id, 1.0)`). -/
def N_SCALE (tid : String) : ℚ :=
  if tid = "BIN_DIPOLE" then 1
  else if tid = "TRI_RING" then 23/20
  else if tid = "TETRA_PACK" then 13/10
  else if tid = "PENTA_FLOWER" then 29/20
  else if tid = "HEPTA_FLOWER" then 8/5
  else 1

/-- `HyperParams` dataclass with its defaults (`resonant_engine.py:31-39`). -/
structure HyperParams where
  sigma_e : ℚ := 1/10
  sigma_N : ℚ := 1
  sigma_xi : ℚ := 1/2
  lambda_N : ℚ := 1/2
  lambda_xi : ℚ := 1/2
  xi_env : ℚ := 1/20
  k_core : ℚ := 1
deriving DecidableEq

/-- A row of the aggregated carrier table consumed by `infer_topologies`
(output columns of `prep_study04_layer_data.py`); `none` is a NaN cell. -/
structure ResRow where
  carrier_element : String
  block : Option String
  carrier_group : Option ℚ
  carrier_period : Option ℚ
  carrier_Z : Option ℚ
  n_materials : Option ℚ
  abs_median : Fin 4 → Option ℚ
  abs_mean : Fin 4 → Option ℚ
  N_median : Option ℚ
  delta_N_median : Option ℚ
  xi_ext_median : Option ℚ

/-- `_prime_vector` (`resonant_engine.py:66-73`): per component, the
absolute value of `abs_{p}_median`, falling back to `abs_{p}_mean`, NaN
when both are missing. -/
def prime_vector (row : ResRow) : Fin 4 → Option ℚ := fun i =>
  match row.abs_median i with
  | some v => some |v|
  | none => (row.abs_mean i).map (fun v => |v|)

/-- The fitted amplitude `A = dot(e_m, w_m) / dot(w_m, w_m)` over the
observed mask, `0` when the denominator is non-positive
(`_fit_amplitude` lines 80-83). -/
def fitA (e_obs : Fin 4 → Option ℚ) (w : Fin 4 → ℚ) : ℚ :=
  if sum4 (fun i => if (e_obs i).isSome then w i * w i else 0) ≤ 0 then 0
  else sum4 (fun i => if (e_obs i).isSome then (e_obs i).getD 0 * w i else 0) /
    sum4 (fun i => if (e_obs i).isSome then w i * w i else 0)

/-- `_fit_amplitude` (`resonant_engine.py:76-86`): closed-form least
squares amplitude over the observed components, and the sum of squared
standardized residuals.  Returns `(A, C_e)`; in the first component
`none` is the NaN amplitude, in the second `none` is the `float("inf")`
cost, both produced when every component is missing.  (The third return
value `e_sim = A·w` of the Python function is discarded by its caller and
is not modelled.) -/
def fit_amplitude (e_obs : Fin 4 → Option ℚ) (w : Fin 4 → ℚ) (sigma_e : ℚ) :
    Option ℚ × Option ℚ :=
  if ∃ i, (e_obs i).isSome then
    (some (fitA e_obs w),
     some (sum4 (fun i => if (e_obs i).isSome
       then (((e_obs i).getD 0 - fitA e_obs w * w i) / sigma_e) ^ 2 else 0)))
  else (none, none)

/-- `_q_lock` (`resonant_engine.py:89-92`): `clip(1 − δN, 0, 1)`, `0` on a
missing deviation. -/
def q_lock_res (delta_N : Option ℚ) : ℚ :=
  match delta_N with
  | none => 0
  | some d => clip01 (1 - d)

/-- `_xi_sim` (`resonant_engine.py:95-96`). -/
def xi_sim_res (q_lock : ℚ) (tid : String) (params : HyperParams) : ℚ :=
  params.xi_env + (1 - q_lock) * COMPLEXITY tid

/-- `_n_sim` (`resonant_engine.py:99-102`). -/
def n_sim_res (N_obs : Option ℚ) (tid : String) : Option ℚ :=
  N_obs.map (fun n => n * N_SCALE tid)

/-- `C_N` for one row/topology pair (`infer_topologies` lines 151-154):
zero when `N_obs` is missing. -/
def c_N_res (params : HyperParams) (N_obs : Option ℚ) (tid : String) : ℚ :=
  match N_obs with
  | none => 0
  | some n => ((n - n * N_SCALE tid) / params.sigma_N) ^ 2

/-- `C_xi` for one row/topology pair (`infer_topologies` lines 155-158):
zero when `xi_obs` is missing. -/
def c_xi_res (params : HyperParams) (q_lock : ℚ) (xi_obs : Option ℚ) (tid : String) : ℚ :=
  match xi_obs with
  | none => 0
  | some x => ((x - xi_sim_res q_lock tid params) / params.sigma_xi) ^ 2

/-- The decomposed cost terms of one row/topology pair. -/
structure ResCostTerms where
  topology_id : String
  C_e : Option ℚ
  C_N : ℚ
  C_xi : ℚ
  A_T : Option ℚ
deriving DecidableEq

def res_terms (params : HyperParams) (row : ResRow) (topo : Topology) : ResCostTerms :=
  { topology_id := topo.topology_id
    C_e := (fit_amplitude (prime_vector row) topo.w params.sigma_e).2
    C_N := c_N_res params row.N_median topo.topology_id
    C_xi := c_xi_res params (q_lock_res row.delta_N_median) row.xi_ext_median
      topo.topology_id
    A_T := (fit_amplitude (prime_vector row) topo.w params.sigma_e).1 }

/-- `C_total = C_e + λN·C_N + λξ·C_ξ` (`infer_topologies` line 160); the
`+∞` sentinel in `C_e` propagates (∞ plus a finite term is ∞). -/
def c_total_res (params : HyperParams) (row : ResRow) (topo : Topology) : Option ℚ :=
  (res_terms params row topo).C_e.map (fun ce =>
    ce + params.lambda_N * (res_terms params row topo).C_N +
      params.lambda_xi * (res_terms params row topo).C_xi)

/-- The catalog-ordered `(terms, C_total)` pairs tracked by the resonant
best loop (`if best_total is None or C_total < best_total`, which updates
topology, total and all decomposed terms together). -/
def resPairs (params : HyperParams) (row : ResRow) (catalog : List Topology) :
    List (ResCostTerms × Option ℚ) :=
  catalog.map (fun topo => (res_terms params row topo, c_total_res params row topo))

/-- Python `max(element_totals)` over the per-catalog totals, where the
`none` sentinel is `+∞` (so it dominates); the `[]` branch feeds the
`else float("inf")` fallback of line 189. -/
def pyMax : List (Option ℚ) → Option ℚ
  | [] => none
  | h :: t => t.foldl (fun cur x => if infLt cur x then x else cur) h

/-- The confidence formula (`infer_topologies` lines 189-190):
`0.0 if not element_totals or max_total == 0 else 1 − best/max`.
With the `+∞` sentinel: a finite best against an infinite max gives
`1 − 0.0 = 1`; an infinite best forces an infinite max (the best is the
minimum of the same list), where `1 − ∞/∞` is the NaN modelled as `none`;
the remaining `some _, none` case is unreachable in the engine. -/
def res_confidence (totals : List (Option ℚ)) (best : Option ℚ) : Option ℚ :=
  if totals.isEmpty then some 0
  else
    match pyMax totals, best with
    | some m, some b => if m = 0 then some 0 else some (1 - b / m)
    | some _, none => none
    | none, some _ => some 1
    | none, none => none

/-- One row of the resonant score table (`score_records` entries). -/
structure ResScoreRec where
  carrier_element : String
  block : Option String
  topology_id : String
  C_e : Option ℚ
  C_N : ℚ
  C_xi : ℚ
  C_total : Option ℚ
  A_T : Option ℚ
  N_obs : Option ℚ
  N_sim : Option ℚ
  xi_obs : Option ℚ
  xi_sim : ℚ
  q_lock : ℚ
deriving DecidableEq

/-- One row of the resonant best-assignment table (`best_records`
entries).  In the `_min` fields and `A_best`, `none` covers the initial
Python `None` of an empty catalog as well as the NaN/∞ sentinels. -/
structure ResBestRec where
  carrier_element : String
  block : Option String
  carrier_group : Option ℚ
  carrier_period : Option ℚ
  carrier_Z : Option ℚ
  n_materials : Option ℚ
  N_obs : Option ℚ
  delta_N_median : Option ℚ
  xi_obs : Option ℚ
  xi_norm : ℚ
  Q_lock : ℚ
  best_topology : Option String
  C_total_min : Option ℚ
  C_e_min : Option ℚ
  C_N_min : Option ℚ
  C_xi_min : Option ℚ
  A_best : Option ℚ
  confidence : Option ℚ
deriving DecidableEq

/-- `min/max` with the empty-column fallback `(0.0, 1.0)` of
`infer_topologies` lines 120-123, returned as `(min, span)` with
`span = max(max − min, 1e-6)`. -/
def res_col_stats (vals : List ℚ) : ℚ × ℚ :=
  match vals.min?, vals.max? with
  | some mn, some mx => (mn, max (mx - mn) (1/1000000))
  | _, _ => (0, max ((1:ℚ) - 0) (1/1000000))

/-- The clipped per-row normalisation `(v − min)/span` (lines 135-138),
`0` on a missing value. -/
def res_norm (stats : ℚ × ℚ) (v : Option ℚ) : ℚ :=
  clip01 (match v with
    | none => 0
    | some x => (x - stats.1) / stats.2)

/-- The score-table rows one carrier row contributes. -/
def resonantRowScores (params : HyperParams) (catalog : List Topology) (row : ResRow) :
    List ResScoreRec :=
  catalog.map (fun topo =>
    { carrier_element := row.carrier_element
      block := row.block
      topology_id := topo.topology_id
      C_e := (res_terms params row topo).C_e
      C_N := (res_terms params row topo).C_N
      C_xi := (res_terms params row topo).C_xi
      C_total := c_total_res params row topo
      A_T := (res_terms params row topo).A_T
      N_obs := row.N_median
      N_sim := n_sim_res row.N_median topo.topology_id
      xi_obs := row.xi_ext_median
      xi_sim := xi_sim_res (q_lock_res row.delta_N_median) topo.topology_id params
      q_lock := q_lock_res row.delta_N_median })

/-- The per-carrier best record of `infer_topologies` (lines 140-213).
The unused local `delta_norm` of the Python loop (computed but stored
nowhere) is not modelled. -/
def resonantRowBest (xstats : ℚ × ℚ) (params : HyperParams) (catalog : List Topology)
    (row : ResRow) : ResBestRec :=
  { carrier_element := row.carrier_element
    block := row.block
    carrier_group := row.carrier_group
    carrier_period := row.carrier_period
    carrier_Z := row.carrier_Z
    n_materials := row.n_materials
    N_obs := row.N_median
    delta_N_median := row.delta_N_median
    xi_obs := row.xi_ext_median
    xi_norm := res_norm xstats row.xi_ext_median
    Q_lock := q_lock_res row.delta_N_median
    best_topology :=
      (bestFold infLt (resPairs params row catalog)).map (fun p => p.1.topology_id)
    C_total_min := (bestFold infLt (resPairs params row catalog)).bind (fun p => p.2)
    C_e_min := (bestFold infLt (resPairs params row catalog)).bind (fun p => p.1.C_e)
    C_N_min := (bestFold infLt (resPairs params row catalog)).map (fun p => p.1.C_N)
    C_xi_min := (bestFold infLt (resPairs params row catalog)).map (fun p => p.1.C_xi)
    A_best := (bestFold infLt (resPairs params row catalog)).bind (fun p => p.1.A_T)
    confidence := res_confidence (catalog.map (c_total_res params row))
      ((bestFold infLt (resPairs params row catalog)).bind (fun p => p.2)) }

/-- `InferenceResult` (scores table, per-element summary table). -/
structure InferenceResult where
  scores : List ResScoreRec
  summary : List ResBestRec

/-- `infer_topologies` (`resonant_engine.py:105-217`): optional element
filter (a `None` or empty filter set is a no-op, Python truthiness of
`if elements:`), fatal error on an empty result, then per-row scoring. -/
def elementsFilter (elements : Option (List String)) (rows : List ResRow) :
    List ResRow :=
  match elements with
  | some es => if es.isEmpty then rows
      else rows.filter (fun r => es.contains r.carrier_element)
  | none => rows

def infer_topologies (rows : List ResRow) (catalog : List Topology)
    (params : HyperParams) (elements : Option (List String)) :
    Except String InferenceResult :=
  if (elementsFilter elements rows).isEmpty then
    .error "No carriers to process after filtering; check --elements"
  else
    .ok { scores := ((elementsFilter elements rows).map
            (resonantRowScores params catalog)).flatten
          summary := (elementsFilter elements rows).map (resonantRowBest
            (res_col_stats ((elementsFilter elements rows).filterMap
              (fun r => r.xi_ext_median))) params catalog) }

/-! ### Claim C1: the reported best topology is the first arg-min -/

theorem exists_liftP {α : Type} (l : List (α × Option ℚ)) (h : ∀ p ∈ l, (p.2).isSome) :
    ∃ vals : List (α × ℚ), l = vals.map liftP := by
  induction l with
  | nil => exact ⟨[], rfl⟩
  | cons p t ih =>
    obtain ⟨vals, hv⟩ := ih (fun q hq => h q (List.mem_cons_of_mem _ hq))
    obtain ⟨q, hq⟩ := Option.isSome_iff_exists.mp (h p (List.mem_cons_self _ _))
    refine ⟨(p.1, q) :: vals, ?_⟩
    rw [List.map_cons, ← hv]
    show p :: t = (p.1, some q) :: t
    rw [← hq]

/-- Option-level packaging of `bestFold_firstMin`: when every cost in the
list is finite (no NaN/∞ sentinel) and the list is non-empty, the loop
returns the earliest entry attaining the global minimum. -/
theorem bestFold_firstMin_opt {α : Type} (cmp : Option ℚ → Option ℚ → Bool)
    (hc : ∀ a b, cmp (some a) (some b) = decide (a < b))
    (l : List (α × Option ℚ)) (hne : l ≠ []) (hs : ∀ p ∈ l, (p.2).isSome) :
    ∃ best pre post,
      bestFold cmp l = some best ∧ (best.2).isSome ∧
      l = pre ++ best :: post ∧
      (∀ p ∈ l, ∀ q b, p.2 = some q → best.2 = some b → b ≤ q) ∧
      (∀ p ∈ pre, ∀ q b, p.2 = some q → best.2 = some b → b < q) := by
  obtain ⟨vals, rfl⟩ := exists_liftP l hs
  have hvne : vals ≠ [] := by
    intro hv
    subst hv
    exact hne rfl
  obtain ⟨bv, pre, post, hbf, hsplit, hmin, hstrict⟩ := bestFold_firstMin cmp hc vals hvne
  refine ⟨liftP bv, pre.map liftP, post.map liftP, hbf, rfl, ?_, ?_, ?_⟩
  · rw [hsplit, List.map_append, List.map_cons]
  · intro p hp q b hq hb
    obtain ⟨v, hv, rfl⟩ := List.mem_map.mp hp
    have hq' : q = v.2 := by
      have : (liftP v).2 = some v.2 := rfl
      rw [this] at hq
      exact (Option.some.injEq _ _ ▸ hq).symm
    have hb' : b = bv.2 := by
      have : (liftP bv).2 = some bv.2 := rfl
      rw [this] at hb
      exact (Option.some.injEq _ _ ▸ hb).symm
    rw [hq', hb']
    exact hmin v hv
  · intro p hp q b hq hb
    obtain ⟨v, hv, rfl⟩ := List.mem_map.mp hp
    have hq' : q = v.2 := by
      have : (liftP v).2 = some v.2 := rfl
      rw [this] at hq
      exact (Option.some.injEq _ _ ▸ hq).symm
    have hb' : b = bv.2 := by
      have : (liftP bv).2 = some bv.2 := rfl
      rw [this] at hb
      exact (Option.some.injEq _ _ ▸ hb).symm
    rw [hq', hb']
    exact hstrict v hv

theorem normalize_primes_isSome (input : Fin 4 → Option ℚ)
    (h : ∀ i, (input i).isSome) : ∀ i, (normalize_primes input i).isSome := by
  intro i
  unfold normalize_primes
  rw [dif_pos h]
  by_cases hs : sum4 (fun i => |(input i).getD 0|) ≤ 0 <;> simp [hs]

theorem compute_ce_isSome (vec : Fin 4 → Option ℚ) (topo : Topology)
    (h : ∀ i, (vec i).isSome) : (compute_ce vec topo).isSome := by
  unfold compute_ce
  rw [if_pos h]
  rfl

theorem c_total_simple_isSome (use_noise : Bool) (lambda_noise : ℚ) (ce : Option ℚ)
    (h : ce.isSome) (cxi : ℚ) : (c_total_simple use_noise lambda_noise ce cxi).isSome := by
  unfold c_total_simple
  cases use_noise with
  | false => exact h
  | true =>
    simp only [if_true]
    obtain ⟨v, hv⟩ := Option.isSome_iff_exists.mp h
    rw [hv]
    rfl

theorem c_total_res_isSome (params : HyperParams) (row : ResRow) (topo : Topology)
    (h : ∃ i, (prime_vector row i).isSome) : (c_total_res params row topo).isSome := by
  unfold c_total_res res_terms fit_amplitude
  rw [if_pos h]
  rfl

/-- C1: the reported best topology is the first entry of the catalog
attaining the global minimum of `C_total` (simple engine, first
conjunct), the fingerprint-only best is the first arg-min of `C_e` alone
(second conjunct), and the resonant engine's best is the first arg-min of
its `C_total` (third conjunct).  Costs are well-ordered — no NaN/∞
sentinel — when the simple row's fingerprint is fully observed,
respectively when the resonant row has at least one observed component
(guaranteed upstream by the prep filter `valid_primes`).  The last two
conjuncts tie the per-row best records to the engines' output tables:
`aggregate_costs` and `infer_topologies` emit exactly one such record per
processed row, in row order. -/
theorem C1_reported_best_is_first_argmin :
    (∀ (dstats xstats : Option (ℚ × ℚ)) (lambda_noise : ℚ) (use_noise : Bool)
       (row : SimpleRow) (catalog : List Topology),
       catalog ≠ [] → (∀ i, (row.abs_mean i).isSome) →
       (∃ best pre post,
         bestFold nanLt (tPairs dstats xstats lambda_noise use_noise row catalog) =
           some best ∧
         (simpleRowBest dstats xstats lambda_noise use_noise catalog row).best_topology =
           some best.1 ∧
         (simpleRowBest dstats xstats lambda_noise use_noise catalog row).C_total_min =
           best.2 ∧
         tPairs dstats xstats lambda_noise use_noise row catalog = pre ++ best :: post ∧
         (∀ p ∈ tPairs dstats xstats lambda_noise use_noise row catalog,
           ∀ q b, p.2 = some q → best.2 = some b → b ≤ q) ∧
         (∀ p ∈ pre, ∀ q b, p.2 = some q → best.2 = some b → b < q)) ∧
       (∃ best pre post,
         bestFold nanLt (ePairs row catalog) = some best ∧
         (simpleRowBest dstats xstats lambda_noise use_noise catalog
           row).best_topology_e_only = some best.1 ∧
         (simpleRowBest dstats xstats lambda_noise use_noise catalog row).C_e_min =
           best.2 ∧
         ePairs row catalog = pre ++ best :: post ∧
         (∀ p ∈ ePairs row catalog, ∀ q b, p.2 = some q → best.2 = some b → b ≤ q) ∧
         (∀ p ∈ pre, ∀ q b, p.2 = some q → best.2 = some b → b < q))) ∧
    (∀ (xstats : ℚ × ℚ) (params : HyperParams) (row : ResRow) (catalog : List Topology),
       catalog ≠ [] → (∃ i, (prime_vector row i).isSome) →
       ∃ best pre post,
         bestFold infLt (resPairs params row catalog) = some best ∧
         (resonantRowBest xstats params catalog row).best_topology =
           some best.1.topology_id ∧
         (resonantRowBest xstats params catalog row).C_total_min = best.2 ∧
         resPairs params row catalog = pre ++ best :: post ∧
         (∀ p ∈ resPairs params row catalog,
           ∀ q b, p.2 = some q → best.2 = some b → b ≤ q) ∧
         (∀ p ∈ pre, ∀ q b, p.2 = some q → best.2 = some b → b < q)) ∧
    (∀ (rows : List SimpleRow) (catalog : List Topology) (lambda_noise : ℚ)
       (use_noise : Bool),
       (aggregate_costs rows catalog lambda_noise use_noise).2 =
         rows.map (simpleRowBest
           (col_stats (rows.filterMap (fun r => r.delta_N_median)))
           (col_stats (rows.filterMap (fun r => r.xi_ext_median)))
           lambda_noise use_noise catalog)) ∧
    (∀ (rows : List ResRow) (catalog : List Topology) (params : HyperParams)
       (elements : Option (List String)) (result : InferenceResult),
       infer_topologies rows catalog params elements = .ok result →
       result.summary = (elementsFilter elements rows).map (resonantRowBest
         (res_col_stats ((elementsFilter elements rows).filterMap
           (fun r => r.xi_ext_median))) params catalog)) := by
  have hnan : ∀ a b : ℚ, nanLt (some a) (some b) = decide (a < b) := fun a b => rfl
  have hinf : ∀ a b : ℚ, infLt (some a) (some b) = decide (a < b) := fun a b => rfl
  constructor
  · intro dstats xstats lambda_noise use_noise row catalog hcat hobs
    constructor
    · have hne : tPairs dstats xstats lambda_noise use_noise row catalog ≠ [] := by
        unfold tPairs
        simpa using hcat
      have hs : ∀ p ∈ tPairs dstats xstats lambda_noise use_noise row catalog,
          (p.2).isSome := by
        intro p hp
        obtain ⟨topo, _, rfl⟩ := List.mem_map.mp hp
        exact c_total_simple_isSome _ _ _
          (compute_ce_isSome _ _ (normalize_primes_isSome _ hobs)) _
      obtain ⟨best, pre, post, hbf, _, hsplit, hmin, hstrict⟩ :=
        bestFold_firstMin_opt nanLt hnan _ hne hs
      exact ⟨best, pre, post, hbf, by simp [simpleRowBest, hbf],
        by simp [simpleRowBest, hbf], hsplit, hmin, hstrict⟩
    · have hne : ePairs row catalog ≠ [] := by
        unfold ePairs
        simpa using hcat
      have hs : ∀ p ∈ ePairs row catalog, (p.2).isSome := by
        intro p hp
        obtain ⟨topo, _, rfl⟩ := List.mem_map.mp hp
        exact compute_ce_isSome _ _ (normalize_primes_isSome _ hobs)
      obtain ⟨best, pre, post, hbf, _, hsplit, hmin, hstrict⟩ :=
        bestFold_firstMin_opt nanLt hnan _ hne hs
      exact ⟨best, pre, post, hbf, by simp [simpleRowBest, hbf],
        by simp [simpleRowBest, hbf], hsplit, hmin, hstrict⟩
  refine ⟨?_, ?_, ?_⟩
  · intro xstats params row catalog hcat hobs
    have hne : resPairs params row catalog ≠ [] := by
      unfold resPairs
      simpa using hcat
    have hs : ∀ p ∈ resPairs params row catalog, (p.2).isSome := by
      intro p hp
      obtain ⟨topo, _, rfl⟩ := List.mem_map.mp hp
      exact c_total_res_isSome _ _ _ hobs
    obtain ⟨best, pre, post, hbf, _, hsplit, hmin, hstrict⟩ :=
      bestFold_firstMin_opt infLt hinf _ hne hs
    exact ⟨best, pre, post, hbf, by simp [resonantRowBest, hbf],
      by simp [resonantRowBest, hbf], hsplit, hmin, hstrict⟩
  · intro rows catalog lambda_noise use_noise
    rfl
  · intro rows catalog params elements result h
    unfold infer_topologies at h
    by_cases hemp : (elementsFilter elements rows).isEmpty
    · rw [if_pos hemp] at h
      cases h
    · rw [if_neg hemp] at h
      rw [Except.ok.injEq] at h
      rw [← h]

/-- A demo row for the resonant engine: fingerprint medians observed,
everything optional missing. -/
def demoResRow : ResRow :=
  { carrier_element := "A", block := some "d", carrier_group := none,
    carrier_period := none, carrier_Z := none, n_materials := some 1,
    abs_median := fun _ => some 1, abs_mean := fun _ => none,
    N_median := none, delta_N_median := none, xi_ext_median := none }

theorem C1_witness :
    ((simpleRowBest (col_stats [0]) (col_stats [0]) (1/2) true [demoTopo]
      demoRow1).best_topology).isSome = true ∧
    ((simpleRowBest (col_stats [0]) (col_stats [0]) (1/2) true [demoTopo]
      demoRow1).best_topology_e_only).isSome = true ∧
    ((resonantRowBest (res_col_stats []) {} [demoTopo]
      demoResRow).best_topology).isSome = true := by
  obtain ⟨hsimple, hres, _, _⟩ := C1_reported_best_is_first_argmin
  obtain ⟨⟨bt, _, _, _, hbt, _⟩, ⟨be, _, _, _, hbe, _⟩⟩ :=
    hsimple (col_stats [0]) (col_stats [0]) (1/2) true demoRow1 [demoTopo]
      (by simp) (fun i => rfl)
  obtain ⟨br, _, _, _, hbr, _⟩ :=
    hres (res_col_stats []) {} demoResRow [demoTopo] (by simp) ⟨0, rfl⟩
  exact ⟨by rw [hbt]; rfl, by rw [hbe]; rfl, by rw [hbr]; rfl⟩

/-! ### Claim C2: the resonant confidence score -/

theorem exists_map_some (l : List (Option ℚ)) (h : ∀ x ∈ l, x.isSome) :
    ∃ vals : List ℚ, l = vals.map some := by
  induction l with
  | nil => exact ⟨[], rfl⟩
  | cons x t ih =>
    obtain ⟨vals, hv⟩ := ih (fun y hy => h y (List.mem_cons_of_mem _ hy))
    obtain ⟨q, hq⟩ := Option.isSome_iff_exists.mp (h x (List.mem_cons_self _ _))
    exact ⟨q :: vals, by rw [List.map_cons, ← hv, ← hq]⟩

/-- Python `max` keeps the incumbent unless the challenger is strictly
larger. -/
def keepMax (b v : ℚ) : ℚ := if b < v then v else b

theorem pyMax_go (t : List ℚ) (b : ℚ) :
    (t.map some).foldl (fun cur x => if infLt cur x then x else cur) (some b) =
      some (t.foldl keepMax b) := by
  induction t generalizing b with
  | nil => rfl
  | cons q t ih =>
    have hstep : (if infLt (some b) (some q) then some q else some b) =
        some (keepMax b q) := by
      show (if decide (b < q) = true then some q else some b) = some (keepMax b q)
      by_cases hlt : b < q <;> simp [hlt, keepMax]
    simpa [List.foldl_cons, hstep] using ih (keepMax b q)

theorem foldl_keepMax_spec (t : List ℚ) (b : ℚ) :
    (t.foldl keepMax b = b ∨ t.foldl keepMax b ∈ t) ∧
    b ≤ t.foldl keepMax b ∧ ∀ v ∈ t, v ≤ t.foldl keepMax b := by
  induction t generalizing b with
  | nil => exact ⟨Or.inl rfl, le_refl b, by simp⟩
  | cons q t ih =>
    rw [List.foldl_cons]
    obtain ⟨hmem, hb, hall⟩ := ih (keepMax b q)
    have hbk : b ≤ keepMax b q := by
      unfold keepMax
      by_cases hlt : b < q
      · rw [if_pos hlt]
        exact le_of_lt hlt
      · rw [if_neg hlt]
    have hqk : q ≤ keepMax b q := by
      unfold keepMax
      by_cases hlt : b < q
      · rw [if_pos hlt]
      · rw [if_neg hlt]
        exact le_of_not_lt hlt
    refine ⟨?_, le_trans hbk hb, ?_⟩
    · rcases hmem with heq | hin
      · by_cases hlt : b < q
        · have hk : keepMax b q = q := by
            unfold keepMax
            rw [if_pos hlt]
          refine Or.inr ?_
          rw [hk] at heq ⊢
          rw [heq]
          exact List.mem_cons_self _ _
        · have hk : keepMax b q = b := by
            unfold keepMax
            rw [if_neg hlt]
          refine Or.inl ?_
          rw [hk] at heq ⊢
          exact heq
      · exact Or.inr (List.mem_cons_of_mem _ hin)
    · intro v hv
      rcases List.mem_cons.mp hv with heq | hv'
      · rw [heq]
        exact le_trans hqk hb
      · exact hall v hv'

theorem pyMax_some_spec (vals : List ℚ) (hne : vals ≠ []) :
    ∃ m, pyMax (vals.map some) = some m ∧ m ∈ vals ∧ ∀ v ∈ vals, v ≤ m := by
  match vals, hne with
  | h :: t, _ =>
    obtain ⟨hmem, _, hall⟩ := foldl_keepMax_spec t h
    refine ⟨t.foldl keepMax h, ?_, ?_, ?_⟩
    · show (t.map some).foldl (fun cur x => if infLt cur x then x else cur) (some h) = _
      exact pyMax_go t h
    · rcases hmem with heq | hin
      · rw [heq]
        exact List.mem_cons_self _ _
      · exact List.mem_cons_of_mem _ hin
    · intro v hv
      rcases List.mem_cons.mp hv with heq | hv'
      · rw [heq]
        exact (foldl_keepMax_spec t h).2.1
      · exact hall v hv'

theorem c_e_res_nonneg (e_obs : Fin 4 → Option ℚ) (w : Fin 4 → ℚ) (sigma_e ce : ℚ)
    (h : (fit_amplitude e_obs w sigma_e).2 = some ce) : 0 ≤ ce := by
  unfold fit_amplitude at h
  by_cases hex : ∃ i, (e_obs i).isSome
  · rw [if_pos hex] at h
    have : sum4 (fun i => if (e_obs i).isSome
        then (((e_obs i).getD 0 - fitA e_obs w * w i) / sigma_e) ^ 2 else 0) = ce := by
      simpa using h
    rw [← this]
    refine sum4_nonneg _ (fun i => ?_)
    by_cases hi : (e_obs i).isSome <;> simp [hi]
    exact sq_nonneg _
  · rw [if_neg hex] at h
    exact absurd h (by simp)

theorem c_N_res_nonneg (params : HyperParams) (N_obs : Option ℚ) (tid : String) :
    0 ≤ c_N_res params N_obs tid := by
  unfold c_N_res
  match N_obs with
  | none => exact le_refl 0
  | some n => exact sq_nonneg _

theorem c_xi_res_nonneg (params : HyperParams) (q : ℚ) (xi_obs : Option ℚ) (tid : String) :
    0 ≤ c_xi_res params q xi_obs tid := by
  unfold c_xi_res
  match xi_obs with
  | none => exact le_refl 0
  | some x => exact sq_nonneg _

theorem c_total_res_nonneg (params : HyperParams)
    (hlN : 0 ≤ params.lambda_N) (hlx : 0 ≤ params.lambda_xi)
    (row : ResRow) (topo : Topology) (q : ℚ)
    (h : c_total_res params row topo = some q) : 0 ≤ q := by
  unfold c_total_res at h
  obtain ⟨ce, hce, hq⟩ := Option.map_eq_some'.mp h
  have h1 : 0 ≤ ce := c_e_res_nonneg _ _ _ _ hce
  have h2 : 0 ≤ params.lambda_N * (res_terms params row topo).C_N :=
    mul_nonneg hlN (by unfold res_terms; exact c_N_res_nonneg _ _ _)
  have h3 : 0 ≤ params.lambda_xi * (res_terms params row topo).C_xi :=
    mul_nonneg hlx (by unfold res_terms; exact c_xi_res_nonneg _ _ _ _)
  rw [← hq]
  linarith

/-- C2: for a processed element with at least one observed fingerprint
component (guaranteed upstream by the prep filter) and non-negative cost
weights (the shipped defaults are `0.5`), the reported confidence is a
defined value in `[0,1]`; it equals `1 − best/max` whenever the maximal
total is non-zero, and is exactly `0` on an empty catalog, when the
maximal total is zero, and when every topology yields the same total. -/
theorem C2_resonant_confidence (xstats : ℚ × ℚ) (params : HyperParams)
    (hlN : 0 ≤ params.lambda_N) (hlx : 0 ≤ params.lambda_xi)
    (row : ResRow) (hobs : ∃ i, (prime_vector row i).isSome)
    (catalog : List Topology) :
    (∃ c, (resonantRowBest xstats params catalog row).confidence = some c ∧
      0 ≤ c ∧ c ≤ 1) ∧
    (catalog = [] → (resonantRowBest xstats params catalog row).confidence = some 0) ∧
    (∀ b m, (resonantRowBest xstats params catalog row).C_total_min = some b →
      pyMax (catalog.map (c_total_res params row)) = some m → m ≠ 0 →
      (resonantRowBest xstats params catalog row).confidence = some (1 - b / m)) ∧
    (pyMax (catalog.map (c_total_res params row)) = some 0 →
      (resonantRowBest xstats params catalog row).confidence = some 0) ∧
    (∀ q, (∀ x ∈ catalog.map (c_total_res params row), x = some q) → catalog ≠ [] →
      (resonantRowBest xstats params catalog row).confidence = some 0) := by
  cases catalog with
  | nil =>
    refine ⟨⟨0, rfl, le_refl 0, zero_le_one⟩, fun _ => rfl, ?_, ?_, ?_⟩
    · intro b m hb _ _
      exact absurd hb (by simp [resonantRowBest, resPairs, bestFold])
    · intro hm
      exact absurd hm (by simp [pyMax])
    · intro q _ hne
      exact absurd rfl hne
  | cons t0 ts =>
    set catalog := t0 :: ts with hcat
    have hsome : ∀ x ∈ catalog.map (c_total_res params row), x.isSome := by
      intro x hx
      obtain ⟨topo, _, rfl⟩ := List.mem_map.mp hx
      exact c_total_res_isSome _ _ _ hobs
    obtain ⟨vals, hvals⟩ := exists_map_some _ hsome
    have hvne : vals ≠ [] := by
      intro hv
      rw [hv] at hvals
      simp [hcat] at hvals
    obtain ⟨m, hm, hmmem, hmall⟩ := pyMax_some_spec vals hvne
    have hpm : pyMax (catalog.map (c_total_res params row)) = some m := by
      rw [hvals]
      exact hm
    have hsome' : ∀ p ∈ resPairs params row catalog, (p.2).isSome := by
      intro p hp
      obtain ⟨topo, _, rfl⟩ := List.mem_map.mp hp
      exact c_total_res_isSome _ _ _ hobs
    have hne : resPairs params row catalog ≠ [] := by
      unfold resPairs
      simp [hcat]
    obtain ⟨best, pre, post, hbf, hbs, hsplit, hmin, _⟩ :=
      bestFold_firstMin_opt infLt (fun a b => rfl) _ hne hsome'
    obtain ⟨b, hb⟩ := Option.isSome_iff_exists.mp hbs
    have hbestmem : best ∈ resPairs params row catalog := by
      rw [hsplit]
      exact List.mem_append_right _ (List.mem_cons_self _ _)
    have hbtot : some b ∈ catalog.map (c_total_res params row) := by
      have : best.2 ∈ (resPairs params row catalog).map (fun p => p.2) :=
        List.mem_map_of_mem _ hbestmem
      rw [← hb]
      simpa [resPairs, List.map_map, Function.comp] using this
    have hb_nonneg : 0 ≤ b := by
      obtain ⟨topo, _, htopo⟩ := List.mem_map.mp hbtot
      exact c_total_res_nonneg params hlN hlx row topo b htopo
    have hm_nonneg : 0 ≤ m := by
      have : some m ∈ catalog.map (c_total_res params row) := by
        rw [hvals]
        exact List.mem_map_of_mem _ hmmem
      obtain ⟨topo, _, htopo⟩ := List.mem_map.mp this
      exact c_total_res_nonneg params hlN hlx row topo m htopo
    have hble : b ≤ m := by
      have hsm : some m ∈ (resPairs params row catalog).map (fun p => p.2) := by
        have : some m ∈ catalog.map (c_total_res params row) := by
          rw [hvals]
          exact List.mem_map_of_mem _ hmmem
        simpa [resPairs, List.map_map, Function.comp] using this
      obtain ⟨p, hp, hps⟩ := List.mem_map.mp hsm
      exact hmin p hp m b hps hb
    have hctm : (resonantRowBest xstats params catalog row).C_total_min = some b := by
      show (bestFold infLt (resPairs params row catalog)).bind (fun p => p.2) = some b
      rw [hbf]
      exact hb
    have hconf : (resonantRowBest xstats params catalog row).confidence =
        res_confidence (catalog.map (c_total_res params row)) (some b) := by
      show res_confidence (catalog.map (c_total_res params row))
          ((bestFold infLt (resPairs params row catalog)).bind (fun p => p.2)) =
        res_confidence (catalog.map (c_total_res params row)) (some b)
      rw [hbf, Option.some_bind, hb]
    have hconfval : (resonantRowBest xstats params catalog row).confidence =
        (if m = 0 then some 0 else some (1 - b / m)) := by
      rw [hconf]
      unfold res_confidence
      rw [if_neg (by simp [hcat])]
      rw [hpm]
    by_cases hm0 : m = 0
    · rw [if_pos hm0] at hconfval
      refine ⟨⟨0, hconfval, le_refl 0, zero_le_one⟩, ?_, ?_, fun _ => hconfval, ?_⟩
      · intro hnil
        exact absurd hnil (by simp [hcat])
      · intro b' m' _ hpm' hm'
        rw [hpm] at hpm'
        refine absurd ?_ hm'
        rw [← Option.some_inj.mp hpm']
        exact hm0
      · intro q _ _
        exact hconfval
    · rw [if_neg hm0] at hconfval
      have hmpos : 0 < m := lt_of_le_of_ne hm_nonneg (Ne.symm hm0)
      refine ⟨⟨1 - b / m, hconfval, ?_, ?_⟩, ?_, ?_, ?_, ?_⟩
      · have : b / m ≤ 1 := (div_le_one hmpos).mpr hble
        linarith
      · have : 0 ≤ b / m := div_nonneg hb_nonneg (le_of_lt hmpos)
        linarith
      · intro hnil
        exact absurd hnil (by simp [hcat])
      · intro b' m' hb' hpm' _
        rw [hctm] at hb'
        rw [hpm] at hpm'
        rw [← Option.some_inj.mp hb', ← Option.some_inj.mp hpm']
        exact hconfval
      · intro hpm'
        rw [hpm] at hpm'
        exact absurd (Option.some_inj.mp hpm') hm0
      · intro q hall _
        have hbq : b = q := Option.some_inj.mp (hall _ hbtot)
        have hmq : m = q := by
          have hsm : some m ∈ catalog.map (c_total_res params row) := by
            rw [hvals]
            exact List.mem_map_of_mem _ hmmem
          exact Option.some_inj.mp (hall _ hsm)
        rw [hconfval, hbq, hmq]
        rw [div_self (by rw [← hmq]; exact hm0)]
        norm_num

theorem C2_resonant_confidence_witness :
    ∃ c, (resonantRowBest (res_col_stats []) {} [demoTopo] demoResRow).confidence =
      some c ∧ 0 ≤ c ∧ c ≤ 1 :=
  (C2_resonant_confidence (res_col_stats []) {} (by norm_num) (by norm_num)
    demoResRow ⟨0, rfl⟩ [demoTopo]).1

/-! ## `analysis.py` — effect sizes, tests, classifier evaluation -/

/-- Insertion sort on rationals (the sorted order behind `np.median`;
numpy's actual sorting algorithm is irrelevant to the sorted result). -/
def insertSorted (x : ℚ) : List ℚ → List ℚ
  | [] => [x]
  | y :: t => if x ≤ y then x :: y :: t else y :: insertSorted x t

def sortQ (l : List ℚ) : List ℚ := l.foldr insertSorted []

/-- `np.median` / pandas `.median()`: middle of the sorted list, mean of
the two middles on even length, NaN (`none`) on the empty list. -/
def medianQ (l : List ℚ) : Option ℚ :=
  if l.length = 0 then none
  else if l.length % 2 = 1 then some ((sortQ l).getD (l.length / 2) 0)
  else some (((sortQ l).getD (l.length / 2 - 1) 0 + (sortQ l).getD (l.length / 2) 0) / 2)

/-- `np.sign` on a single value. -/
def sign (q : ℚ) : ℚ := if 0 < q then 1 else if q < 0 then -1 else 0

/-- `cliffs_delta` (`analysis.py:21-31`): the mean of `sign(x_i − y_j)`
over all pairs; `none` is the `np.nan` returned when either input is
empty. -/
def cliffs_delta (x y : List ℚ) : Option ℚ :=
  if x.length = 0 ∨ y.length = 0 then none
  else some ((x.map (fun a => (y.map (fun b => sign (a - b))).sum)).sum /
    ((x.length : ℚ) * (y.length : ℚ)))

/-- `_group_arrays` (`analysis.py:52-54`): the values whose label is in
the target set. -/
def selectWhere (vals : List ℚ) (labels : List String) (targets : List String) :
    List ℚ :=
  ((vals.zip labels).filter (fun p => targets.contains p.2)).map (fun p => p.1)

/-- `TestResult` dataclass; `none` fields are the `None` of the degenerate
branch. -/
structure TestResult where
  n_a : ℕ
  n_b : ℕ
  delta : Option ℚ
  p_value : Option ℚ
  median_diff : Option ℚ
deriving DecidableEq

/-- `mann_whitney_with_effect` (`analysis.py:65-76`).  The two-sided
rank-test p-value comes from scipy; its computation is outside the spec's
scope and enters as the collaborator function `mwPValue`, called only in
the non-degenerate branch (scipy would raise on an empty input, which the
guard prevents). -/
def mann_whitney_with_effect (mwPValue : List ℚ → List ℚ → ℚ)
    (values : List ℚ) (labels : List String) (group_a group_b : List String) :
    TestResult :=
  let a_vals := selectWhere values labels group_a
  let b_vals := selectWhere values labels group_b
  if a_vals.length = 0 ∨ b_vals.length = 0 then
    { n_a := a_vals.length, n_b := b_vals.length,
      delta := none, p_value := none, median_diff := none }
  else
    { n_a := a_vals.length, n_b := b_vals.length,
      delta := cliffs_delta a_vals b_vals,
      p_value := some (mwPValue a_vals b_vals),
      median_diff :=
        match medianQ a_vals, medianQ b_vals with
        | some ma, some mb => some (ma - mb)
        | _, _ => none }

/-- `np.isin(labels, ["d", "f"])`: the positive class of the binary
target. -/
def labelPositive (b : String) : Bool := b = "d" || b = "f"

/-- `accuracy_score`: fraction of positions where prediction equals
label. -/
def accuracy_score (y preds : List Bool) : ℚ :=
  (((y.zip preds).filter (fun p => p.1 == p.2)).length : ℚ) / (y.length : ℚ)

/-- Per-class recall, used by `balanced_accuracy_score`. -/
def recallOn (y preds : List Bool) (c : Bool) : ℚ :=
  ((((y.zip preds).filter (fun p => p.1 == c)).filter (fun p => p.2 == c)).length : ℚ) /
    (((y.zip preds).filter (fun p => p.1 == c)).length : ℚ)

/-- `balanced_accuracy_score`: macro average of recall over the classes
present in `y`. -/
def balanced_accuracy_score (y preds : List Bool) : ℚ :=
  ((y.dedup.map (recallOn y preds)).sum) / (y.dedup.length : ℚ)

/-- `ClassifierResult` dataclass (`analysis.py:79-88`). -/
structure ClassifierResult where
  n_samples : ℕ
  n_positive : ℕ
  n_negative : ℕ
  accuracy : Option ℚ
  balanced_accuracy : Option ℚ
  roc_auc : Option ℚ
  baseline_accuracy : Option ℚ
  roc_curve_points : Option (List ℚ × List ℚ × List ℚ)

/-- The binary target `y = np.isin(labels, ["d", "f"]).astype(int)`. -/
def yOf (labels : List String) : List Bool := labels.map labelPositive

/-- `n_positive = int(y.sum())`. -/
def nPosOf (labels : List String) : ℕ := ((yOf labels).filter (fun b => b)).length

/-- `n_negative = len(y) − n_positive`. -/
def nNegOf (labels : List String) : ℕ := (yOf labels).length - nPosOf labels

/-- `baseline_acc = max(n_positive, n_negative) / len(y) if len(y) > 0
else None`. -/
def baselineOf (labels : List String) : Option ℚ :=
  if 0 < (yOf labels).length
  then some ((max (nPosOf labels) (nNegOf labels) : ℚ) / ((yOf labels).length : ℚ))
  else none

/-- `preds = (probas >= 0.5).astype(int)`. -/
def predsOf (cvProbas : List (Fin 4 → ℚ) → List Bool → List ℚ)
    (X : List (Fin 4 → ℚ)) (labels : List String) : List Bool :=
  (cvProbas X (yOf labels)).map (fun p => decide ((1:ℚ)/2 ≤ p))

/-- `evaluate_classifier` (`analysis.py:91-137`).  The cross-validated
out-of-fold probabilities of the sklearn logistic model are outside the
contract ("the contract is the evaluation protocol, not the model
internals") and enter as the collaborator `cvProbas`; `rocOracle` stands
for `roc_auc_score`/`roc_curve`, returning `none` when sklearn raises the
`ValueError` that the `try/except` converts to null results. -/
def evaluate_classifier
    (cvProbas : List (Fin 4 → ℚ) → List Bool → List ℚ)
    (rocOracle : List Bool → List ℚ → Option (ℚ × (List ℚ × List ℚ × List ℚ)))
    (X : List (Fin 4 → ℚ)) (labels : List String) : ClassifierResult :=
  if (yOf labels).dedup.length < 2 ∨ (yOf labels).length < 3 then
    { n_samples := (yOf labels).length, n_positive := nPosOf labels,
      n_negative := nNegOf labels,
      accuracy := none, balanced_accuracy := none, roc_auc := none,
      baseline_accuracy := baselineOf labels, roc_curve_points := none }
  else
    match rocOracle (yOf labels) (cvProbas X (yOf labels)) with
    | some (auc, pts) =>
      { n_samples := (yOf labels).length, n_positive := nPosOf labels,
        n_negative := nNegOf labels,
        accuracy := some (accuracy_score (yOf labels) (predsOf cvProbas X labels)),
        balanced_accuracy :=
          some (balanced_accuracy_score (yOf labels) (predsOf cvProbas X labels)),
        roc_auc := some auc, baseline_accuracy := baselineOf labels,
        roc_curve_points := some pts }
    | none =>
      { n_samples := (yOf labels).length, n_positive := nPosOf labels,
        n_negative := nNegOf labels,
        accuracy := some (accuracy_score (yOf labels) (predsOf cvProbas X labels)),
        balanced_accuracy :=
          some (balanced_accuracy_score (yOf labels) (predsOf cvProbas X labels)),
        roc_auc := none, baseline_accuracy := baselineOf labels,
        roc_curve_points := none }

/-! ## `null_models.py` -/

/-- Is this Python value `None`? -/
def PyVal.isNone : PyVal → Bool
  | .pynone => true
  | _ => false

/-- Mean of a list of rationals (`np.mean` on the finite samples). -/
def listMean (l : List ℚ) : ℚ := l.sum / (l.length : ℚ)

/-- Sample variance with one degree of freedom subtracted; `np.std(ddof=1)`
is its float square root, which enters through a `sqrtQ` collaborator. -/
def listVar1 (l : List ℚ) : ℚ :=
  ((l.map (fun v => (v - listMean l) ^ 2)).sum) / ((l.length : ℚ) - 1)

/-- `_empirical_p` (`null_models.py:36-41`).  The guard is
`np.isnan(real) or real is None or arr.size == 0`: evaluation is left to
right, and `np.isnan(None)` raises `TypeError`, so a Python-`None` real
statistic raises before the dead `real is None` test is reached — the
`.error` case.  A NaN real or an empty finite-sample list returns `None`
(`.ok none`). -/
def empirical_p : PyVal → List PyVal → Except String (Option ℚ)
  | .pynone, _ => .error "TypeError: np.isnan(None)"
  | .nan, _ => .ok none
  | .fin r, samples =>
    if (samples.filterMap PyVal.toQ).length = 0 then .ok none
    else .ok (some ((((samples.filterMap PyVal.toQ).filter
        (fun v => decide (|r| ≤ |v|))).length + 1 : ℚ) /
      ((samples.filterMap PyVal.toQ).length + 1 : ℚ)))

/-- `_z_score` (`null_models.py:44-48`), with the same left-to-right guard
(`np.isnan(None)` raises) and `none` when fewer than 2 finite samples
remain. -/
def z_score (sqrtQ : ℚ → ℚ) : PyVal → List PyVal → Except String (Option ℚ)
  | .pynone, _ => .error "TypeError: np.isnan(None)"
  | .nan, _ => .ok none
  | .fin r, samples =>
    if (samples.filterMap PyVal.toQ).length < 2 then .ok none
    else .ok (some ((r - listMean (samples.filterMap PyVal.toQ)) /
      sqrtQ (listVar1 (samples.filterMap PyVal.toQ))))

/-- Column `i` of the feature matrix. -/
def colOf (X : List (Fin 4 → ℚ)) (i : Fin 4) : List ℚ := X.map (fun r => r i)

/-- The four tracked statistics of `_metric_snapshot`
(`null_models.py:15-33`): three Cliff's deltas (float NaN on empty
groups) and the classifier accuracy (Python `None` in the skip branch). -/
structure Snapshot where
  delta_e2_p_vs_df : PyVal
  delta_e5_df_vs_sp : PyVal
  delta_e7_df_vs_sp : PyVal
  classifier_accuracy : PyVal
deriving DecidableEq

/-- A float-or-NaN result (`np.nan` for `none`). -/
def toPyNan : Option ℚ → PyVal
  | none => .nan
  | some q => .fin q

/-- A float-or-`None` result (Python `None` for `none`). -/
def toPyNone : Option ℚ → PyVal
  | none => .pynone
  | some q => .fin q

def metric_snapshot
    (cvProbas : List (Fin 4 → ℚ) → List Bool → List ℚ)
    (rocOracle : List Bool → List ℚ → Option (ℚ × (List ℚ × List ℚ × List ℚ)))
    (X : List (Fin 4 → ℚ)) (labels : List String) : Snapshot :=
  { delta_e2_p_vs_df := toPyNan (cliffs_delta
      (selectWhere (colOf X 0) labels ["p"])
      (selectWhere (colOf X 0) labels ["d", "f"]))
    delta_e5_df_vs_sp := toPyNan (cliffs_delta
      (selectWhere (colOf X 2) labels ["d", "f"])
      (selectWhere (colOf X 2) labels ["s", "p"]))
    delta_e7_df_vs_sp := toPyNan (cliffs_delta
      (selectWhere (colOf X 3) labels ["d", "f"])
      (selectWhere (colOf X 3) labels ["s", "p"]))
    classifier_accuracy :=
      toPyNone (evaluate_classifier cvProbas rocOracle X labels).accuracy }

/-- `np.nanmean` over the accumulated samples of one statistic: skips
NaNs, NaN on an all-NaN list, and raises `TypeError` when a Python `None`
is among them (numpy falls back to an object array). -/
def nanmean (samples : List PyVal) : Except String PyVal :=
  if samples.any PyVal.isNone then .error "TypeError: nanmean of object array"
  else match samples.filterMap PyVal.toQ with
    | [] => .ok .nan
    | l => .ok (.fin (listMean l))

/-- `np.nanstd(·, ddof=1)` with the same object-array failure mode; NaN
with fewer than 2 finite samples. -/
def nanstd (sqrtQ : ℚ → ℚ) (samples : List PyVal) : Except String PyVal :=
  if samples.any PyVal.isNone then .error "TypeError: nanstd of object array"
  else if (samples.filterMap PyVal.toQ).length < 2 then .ok .nan
  else .ok (.fin (sqrtQ (listVar1 (samples.filterMap PyVal.toQ))))

/-- One per-statistic summary block (`mean/std/p_value/z_score/real`),
built in the source's dict order so the first raising step wins. -/
structure NullEntry where
  mean : PyVal
  std : PyVal
  p_value : Option ℚ
  z_score : Option ℚ
  real : Option ℚ
deriving DecidableEq

def summary_entry (sqrtQ : ℚ → ℚ) (real : PyVal) (samples : List PyVal) :
    Except String NullEntry := do
  let m ← nanmean samples
  let s ← nanstd sqrtQ samples
  let p ← empirical_p real samples
  let z ← z_score sqrtQ real samples
  pure { mean := m, std := s, p_value := p, z_score := z, real := real.toQ }

/-- The outcome of a null-model run: the skip dictionaries, a full
summary, or a propagated Python exception.  (The summary's `n_perm` /
`n_rotations` and `n_elements` bookkeeping fields are `nTrials` and
`nElements`.) -/
inductive NullOutcome where
  | skipped (reason : String) (nTrials : Option ℤ)
  | success (e2 e5 e7 acc : NullEntry) (nTrials : ℕ) (nElements : ℕ)
  | raised (err : String)
deriving DecidableEq

/-- The shared summary assembly of both null engines (the final loop of
`run_permutation_nulls` / `run_rotation_nulls`), key by key in dict
order. -/
def null_summary (sqrtQ : ℚ → ℚ) (real : Snapshot) (samples : List Snapshot)
    (nTrials nElements : ℕ) : NullOutcome :=
  match summary_entry sqrtQ real.delta_e2_p_vs_df
      (samples.map (fun s => s.delta_e2_p_vs_df)),
    summary_entry sqrtQ real.delta_e5_df_vs_sp
      (samples.map (fun s => s.delta_e5_df_vs_sp)),
    summary_entry sqrtQ real.delta_e7_df_vs_sp
      (samples.map (fun s => s.delta_e7_df_vs_sp)),
    summary_entry sqrtQ real.classifier_accuracy
      (samples.map (fun s => s.classifier_accuracy)) with
  | .error e, _, _, _ => .raised e
  | _, .error e, _, _ => .raised e
  | _, _, .error e, _ => .raised e
  | _, _, _, .error e => .raised e
  | .ok a, .ok b, .ok c, .ok d => .success a b c d nTrials nElements

/-- Which prime-statistic columns feed the feature matrix. -/
inductive PrimeMetric where
  | mean
  | median
deriving DecidableEq

/-- A row of the aggregated element table consumed by
`prepare_working_set`. -/
structure AggRow where
  n_materials : ℚ
  block : Option String
  feat_mean : Fin 4 → Option ℚ
  feat_median : Fin 4 → Option ℚ

def featOf (metric : PrimeMetric) (r : AggRow) : Fin 4 → Option ℚ :=
  match metric with
  | .mean => r.feat_mean
  | .median => r.feat_median

/-- `prepare_working_set` (`analysis.py:40-49`): keep rows with
`n_materials ≥ n_min` and no NaN in the selected feature columns or in
`block`; return the working rows, the feature matrix and the labels. -/
def prepare_working_set (rows : List AggRow) (n_min : ℚ) (metric : PrimeMetric) :
    List AggRow × List (Fin 4 → ℚ) × List String :=
  (rows.filter (fun r => decide (n_min ≤ r.n_materials) &&
      (List.finRange 4).all (fun i => (featOf metric r i).isSome) && r.block.isSome),
   (rows.filter (fun r => decide (n_min ≤ r.n_materials) &&
      (List.finRange 4).all (fun i => (featOf metric r i).isSome) && r.block.isSome)).map
     (fun r i => (featOf metric r i).getD 0),
   (rows.filter (fun r => decide (n_min ≤ r.n_materials) &&
      (List.finRange 4).all (fun i => (featOf metric r i).isSome) && r.block.isSome)).map
     (fun r => r.block.getD ""))

/-- `run_permutation_nulls` (`null_models.py:51-84`).  The numpy PCG64
generator created by `np.random.default_rng(random_state)` is modelled as
an explicit state `S`: `initRng` seeds it and `permute` is one
`rng.permutation(labels)` draw, threading the state through the trials in
order — exactly the deterministic per-trial draw sequence of the
sequential loop. -/
def run_permutation_nulls {S : Type} (initRng : ℕ → S)
    (permute : S → List String → List String × S)
    (cvProbas : List (Fin 4 → ℚ) → List Bool → List ℚ)
    (rocOracle : List Bool → List ℚ → Option (ℚ × (List ℚ × List ℚ × List ℚ)))
    (sqrtQ : ℚ → ℚ) (rows : List AggRow) (n_min : ℚ) (metric : PrimeMetric)
    (n_perm : ℕ) (random_state : ℕ) : NullOutcome :=
  let X := (prepare_working_set rows n_min metric).2.1
  let labels := (prepare_working_set rows n_min metric).2.2
  if labels.isEmpty then .skipped "No elements pass n_min filter." (some n_perm)
  else
    let trials := (List.range n_perm).foldl
      (fun (acc : List Snapshot × S) _ =>
        ((acc.1 ++ [metric_snapshot cvProbas rocOracle X
            (permute acc.2 labels).1]),
         (permute acc.2 labels).2))
      ([], initRng random_state)
    null_summary sqrtQ (metric_snapshot cvProbas rocOracle X labels) trials.1
      n_perm labels.length

/-- `run_rotation_nulls` (`null_models.py:96-133`).  One draw of
`_random_rotation` (QR of a Gaussian matrix, sign-corrected) is the state
transition `rotate`; the rotated features are `abs(X @ R)`. -/
def run_rotation_nulls {S : Type} (initRng : ℕ → S)
    (rotate : S → (Fin 4 → Fin 4 → ℚ) × S)
    (cvProbas : List (Fin 4 → ℚ) → List Bool → List ℚ)
    (rocOracle : List Bool → List ℚ → Option (ℚ × (List ℚ × List ℚ × List ℚ)))
    (sqrtQ : ℚ → ℚ) (rows : List AggRow) (n_min : ℚ) (metric : PrimeMetric)
    (n_rotations : ℤ) (random_state : ℕ) : NullOutcome :=
  if n_rotations ≤ 0 then .skipped "n_rotations set to 0." none
  else
    let X := (prepare_working_set rows n_min metric).2.1
    let labels := (prepare_working_set rows n_min metric).2.2
    if labels.isEmpty then .skipped "No elements pass n_min filter." (some n_rotations)
    else
      let trials := (List.range n_rotations.toNat).foldl
        (fun (acc : List Snapshot × S) _ =>
          ((acc.1 ++ [metric_snapshot cvProbas rocOracle
              (X.map (fun r i => |sum4 (fun j => r j * (rotate acc.2).1 j i)|))
              labels]),
           (rotate acc.2).2))
        ([], initRng random_state)
      null_summary sqrtQ (metric_snapshot cvProbas rocOracle X labels) trials.1
        n_rotations.toNat labels.length

/-! ### Claim C5: the zero-variance empirical p-value -/

/-- C5, counterexample: with the real statistic equal to every null
sample's absolute value (three trials of value 1), the returned p-value
is `(3+1)/(3+1) = 1`, not `1/(3+1)`: `|null| ≥ |real|` holds at every
trial, so the add-one-smoothed count is full. -/
theorem C5_counterexample :
    empirical_p (.fin 1) [.fin 1, .fin 1, .fin 1] = .ok (some 1) ∧
    empirical_p (.fin 1) [.fin 1, .fin 1, .fin 1] ≠ .ok (some (1 / (3 + 1))) := by
  have h : empirical_p (.fin 1) [.fin 1, .fin 1, .fin 1] = .ok (some 1) := by
    norm_num [empirical_p, PyVal.toQ, List.filterMap, List.filter]
  refine ⟨h, ?_⟩
  rw [h]
  intro hc
  rw [Except.ok.injEq, Option.some.injEq] at hc
  norm_num at hc

/-- C5, amended: when the real statistic equals every null sample's
absolute value and at least one finite null sample exists, the p-value is
exactly `(n+1)/(n+1) = 1` — the add-one smoothing appears in numerator
and denominator alike.  (A p-value of `1/(n+1)` would instead require the
real statistic to strictly exceed every null sample's absolute value.) -/
theorem C5_empirical_p_amended (r : ℚ) (samples : List PyVal)
    (hne : samples.filterMap PyVal.toQ ≠ [])
    (hall : ∀ v ∈ samples.filterMap PyVal.toQ, |v| = r) :
    empirical_p (.fin r) samples = .ok (some 1) := by
  simp only [empirical_p]
  rw [if_neg (by simpa using hne)]
  have hr0 : 0 ≤ r := by
    obtain ⟨v, hv⟩ := List.exists_mem_of_ne_nil _ hne
    rw [← hall v hv]
    exact abs_nonneg v
  have hfilter : (samples.filterMap PyVal.toQ).filter (fun v => decide (|r| ≤ |v|)) =
      samples.filterMap PyVal.toQ := by
    rw [List.filter_eq_self]
    intro v hv
    rw [hall v hv, abs_of_nonneg hr0]
    simp
  rw [hfilter]
  have hlen : ((samples.filterMap PyVal.toQ).length : ℚ) + 1 ≠ 0 := by positivity
  rw [div_self hlen]

theorem C5_empirical_p_amended_witness :
    ([(.fin 2 : PyVal), .fin (-2)].filterMap PyVal.toQ ≠ []) ∧
    empirical_p (.fin 2) [.fin 2, .fin (-2)] = .ok (some 1) := by
  refine ⟨by simp [PyVal.toQ], ?_⟩
  refine C5_empirical_p_amended 2 [.fin 2, .fin (-2)] (by simp [PyVal.toQ]) ?_
  intro v hv
  simp [PyVal.toQ] at hv
  rcases hv with rfl | rfl <;> norm_num

/-! ### Claim C6: degenerate statistical inputs -/

/-- C6: the degenerate-input contract is broken for a Python-`None` real
statistic: `_empirical_p(None, ...)` and `_z_score(None, ...)` evaluate
`np.isnan(real)` left to right before their `real is None` test, and
`np.isnan(None)` raises `TypeError` — so a null real statistic (e.g. the
classifier accuracy of a degenerate working set, propagated into the
null-model summary) raises instead of returning null.  The dead
`real is None` guard, and the correctly ordered check
`real_metrics[key] is None or np.isnan(...)` a few lines below, show the
intended null result.  All the other degenerate cases listed by the claim
do return null without raising, as the remaining conjuncts state. -/
theorem C6_degenerate_inputs :
    empirical_p .pynone [.fin (1/10), .fin (1/5)] =
      .error "TypeError: np.isnan(None)" ∧
    z_score id .pynone [.fin (1/10), .fin (1/5)] =
      .error "TypeError: np.isnan(None)" ∧
    (∀ samples, empirical_p .nan samples = .ok none) ∧
    (∀ r samples, samples.filterMap PyVal.toQ = [] →
      empirical_p (.fin r) samples = .ok none) ∧
    (∀ sq samples, z_score sq .nan samples = .ok none) ∧
    (∀ sq r samples, (samples.filterMap PyVal.toQ).length < 2 →
      z_score sq (.fin r) samples = .ok none) ∧
    (∀ mw values labels ga gb,
      selectWhere values labels ga = [] ∨ selectWhere values labels gb = [] →
      (mann_whitney_with_effect mw values labels ga gb).delta = none ∧
      (mann_whitney_with_effect mw values labels ga gb).p_value = none ∧
      (mann_whitney_with_effect mw values labels ga gb).median_diff = none) ∧
    (∀ f g X labels,
      (yOf labels).dedup.length < 2 ∨ (yOf labels).length < 3 →
      (evaluate_classifier f g X labels).accuracy = none ∧
      (evaluate_classifier f g X labels).balanced_accuracy = none ∧
      (evaluate_classifier f g X labels).roc_auc = none ∧
      (evaluate_classifier f g X labels).roc_curve_points = none) := by
  refine ⟨rfl, rfl, fun _ => rfl, ?_, fun _ _ => rfl, ?_, ?_, ?_⟩
  · intro r samples h
    simp only [empirical_p]
    rw [if_pos (by rw [h]; rfl)]
  · intro sq r samples h
    simp only [z_score]
    rw [if_pos h]
  · intro mw values labels ga gb h
    unfold mann_whitney_with_effect
    rw [if_pos (by rcases h with h | h <;> rw [h] <;> simp)]
    exact ⟨rfl, rfl, rfl⟩
  · intro f g X labels h
    unfold evaluate_classifier
    rw [if_pos h]
    exact ⟨rfl, rfl, rfl, rfl⟩

theorem C6_degenerate_inputs_witness :
    empirical_p (.fin 1) [.pynone, .nan] = .ok none ∧
    z_score id (.fin 1) [.fin 1, .nan] = .ok none ∧
    (mann_whitney_with_effect (fun _ _ => 0) [1, 2] ["s", "p"] ["d"] ["s", "p"]).delta =
      none ∧
    (evaluate_classifier (fun _ _ => []) (fun _ _ => none) []
      ["d", "d"]).accuracy = none := by
  obtain ⟨h1, h2, h3, h4, h5, h6, h7, h8⟩ := C6_degenerate_inputs
  refine ⟨?_, ?_, ?_, ?_⟩
  · exact h4 1 [.pynone, .nan] (by simp [PyVal.toQ])
  · exact h6 id 1 [.fin 1, .nan] (by simp [PyVal.toQ])
  · exact (h7 (fun _ _ => 0) [1, 2] ["s", "p"] ["d"] ["s", "p"]
      (by left; simp [selectWhere])).1
  · exact (h8 (fun _ _ => []) (fun _ _ => none) [] ["d", "d"]
      (by right; simp [yOf])).1

/-! ### Claim C8: antisymmetry of Cliff's delta -/

theorem list_sum_map_add (l : List ℚ) (f g : ℚ → ℚ) :
    (l.map (fun a => f a + g a)).sum = (l.map f).sum + (l.map g).sum := by
  induction l with
  | nil => simp
  | cons a t ih =>
    simp only [List.map_cons, List.sum_cons, ih]
    ring

theorem list_sum_map_neg (l : List ℚ) (f : ℚ → ℚ) :
    (l.map (fun a => - f a)).sum = - (l.map f).sum := by
  induction l with
  | nil => simp
  | cons a t ih =>
    simp only [List.map_cons, List.sum_cons, ih]
    ring

theorem list_sum_swap (x y : List ℚ) (f : ℚ → ℚ → ℚ) :
    (x.map (fun a => (y.map (fun b => f a b)).sum)).sum =
      (y.map (fun b => (x.map (fun a => f a b)).sum)).sum := by
  induction x with
  | nil =>
    simp only [List.map_nil, List.sum_nil]
    induction y with
    | nil => simp
    | cons b t ih => simp
  | cons a t ih =>
    simp only [List.map_cons, List.sum_cons, ih, ← list_sum_map_add]

theorem sign_neg_eq (q : ℚ) : sign (-q) = - sign q := by
  unfold sign
  rcases lt_trichotomy 0 q with h | h | h
  · rw [if_neg (by linarith), if_pos (by linarith), if_pos h]
  · rw [← h]
    norm_num
  · rw [if_pos (show (0:ℚ) < -q by linarith), if_neg (show ¬ (0:ℚ) < q by linarith),
      if_pos h]
    norm_num

/-- C8: `cliffs_delta(x, y) = −cliffs_delta(y, x)` for all non-empty
inputs — the pairwise sign matrix is antisymmetric and the denominators
agree up to commutativity. -/
theorem C8_cliffs_delta_antisymmetry (x y : List ℚ) (hx : x ≠ []) (hy : y ≠ []) :
    ∃ d, cliffs_delta x y = some d ∧ cliffs_delta y x = some (-d) := by
  have hxl : x.length ≠ 0 := by simpa using hx
  have hyl : y.length ≠ 0 := by simpa using hy
  unfold cliffs_delta
  rw [if_neg (by push_neg; exact ⟨hxl, hyl⟩), if_neg (by push_neg; exact ⟨hyl, hxl⟩)]
  refine ⟨_, rfl, ?_⟩
  rw [Option.some.injEq]
  have hswap : (y.map (fun a => (x.map (fun b => sign (a - b))).sum)).sum =
      - (x.map (fun a => (y.map (fun b => sign (a - b))).sum)).sum := by
    rw [list_sum_swap y x (fun a b => sign (a - b))]
    rw [← list_sum_map_neg]
    congr 1
    refine List.map_congr_left ?_
    intro c _
    rw [← list_sum_map_neg]
    congr 1
    refine List.map_congr_left ?_
    intro a _
    rw [show a - c = -(c - a) by ring, sign_neg_eq]
  rw [hswap, mul_comm ((y.length : ℚ)) ((x.length : ℚ)), neg_div]

theorem C8_cliffs_delta_antisymmetry_witness :
    ∃ d, cliffs_delta [1] [0] = some d ∧ cliffs_delta [0] [1] = some (-d) :=
  C8_cliffs_delta_antisymmetry [1] [0] (by simp) (by simp)

/-! ### Claim C10: the baseline accuracy is always reported -/

theorem evaluate_classifier_baseline (f : List (Fin 4 → ℚ) → List Bool → List ℚ)
    (g : List Bool → List ℚ → Option (ℚ × (List ℚ × List ℚ × List ℚ)))
    (X : List (Fin 4 → ℚ)) (labels : List String) :
    (evaluate_classifier f g X labels).baseline_accuracy = baselineOf labels := by
  unfold evaluate_classifier
  split
  · rfl
  · split <;> rfl

/-- C10: the majority-class baseline accuracy
`max(n_positive, n_negative)/n_samples` is reported whenever the input is
non-empty — including the skip branch that nulls the other metrics — and
is null exactly on the empty input. -/
theorem C10_baseline_accuracy (f : List (Fin 4 → ℚ) → List Bool → List ℚ)
    (g : List Bool → List ℚ → Option (ℚ × (List ℚ × List ℚ × List ℚ)))
    (X : List (Fin 4 → ℚ)) (labels : List String) :
    (labels ≠ [] → (evaluate_classifier f g X labels).baseline_accuracy =
      some ((max (nPosOf labels) (nNegOf labels) : ℚ) / (labels.length : ℚ))) ∧
    (labels = [] → (evaluate_classifier f g X labels).baseline_accuracy = none) := by
  rw [evaluate_classifier_baseline f g X labels]
  unfold baselineOf yOf
  constructor
  · intro hne
    rw [if_pos (by simpa [List.length_pos] using hne)]
    rw [List.length_map]
  · intro hnil
    subst hnil
    rfl

theorem C10_baseline_accuracy_witness :
    (evaluate_classifier (fun _ _ => []) (fun _ _ => none) []
      ["d", "s"]).baseline_accuracy =
      some ((max (nPosOf ["d", "s"]) (nNegOf ["d", "s"]) : ℚ) /
        ((["d", "s"] : List String).length : ℚ)) :=
  (C10_baseline_accuracy (fun _ _ => []) (fun _ _ => none) [] ["d", "s"]).1 (by simp)

/-! ### Claim C7: determinism of the null-model engines -/

/-- C7: both null engines are deterministic functions of the aggregate
table, `n_min`, prime metric, trial count and seed.  The embedding makes
the numpy generator explicit: `initRng` seeds the PCG64 state inside the
call (so one run cannot leak state into the next), and `permute` /
`rotate` are single draws threading that state through the trials in
sequential order; hence the per-trial draw sequence — and with it every
mean, std, p-value, z-score and real value of the summary — coincides
across two runs with identical arguments and equal seeds. -/
theorem C7_null_models_deterministic {S : Type} (initRng : ℕ → S)
    (permute : S → List String → List String × S)
    (rotate : S → (Fin 4 → Fin 4 → ℚ) × S)
    (cvProbas : List (Fin 4 → ℚ) → List Bool → List ℚ)
    (rocOracle : List Bool → List ℚ → Option (ℚ × (List ℚ × List ℚ × List ℚ)))
    (sqrtQ : ℚ → ℚ) (rows : List AggRow) (n_min : ℚ) (metric : PrimeMetric)
    (n_perm : ℕ) (n_rotations : ℤ) (seed1 seed2 : ℕ) (h : seed1 = seed2) :
    run_permutation_nulls initRng permute cvProbas rocOracle sqrtQ rows n_min metric
        n_perm seed1 =
      run_permutation_nulls initRng permute cvProbas rocOracle sqrtQ rows n_min metric
        n_perm seed2 ∧
    run_rotation_nulls initRng rotate cvProbas rocOracle sqrtQ rows n_min metric
        n_rotations seed1 =
      run_rotation_nulls initRng rotate cvProbas rocOracle sqrtQ rows n_min metric
        n_rotations seed2 := by
  subst h
  exact ⟨rfl, rfl⟩

theorem C7_null_models_deterministic_witness :
    run_permutation_nulls (fun _ => ()) (fun s l => (l, s)) (fun _ _ => [])
        (fun _ _ => none) id [] 0 .mean 5 0 =
      run_permutation_nulls (fun _ => ()) (fun s l => (l, s)) (fun _ _ => [])
        (fun _ _ => none) id [] 0 .mean 5 0 ∧
    run_rotation_nulls (fun _ => ()) (fun s => (fun _ _ => 0, s)) (fun _ _ => [])
        (fun _ _ => none) id [] 0 .mean 3 0 =
      run_rotation_nulls (fun _ => ()) (fun s => (fun _ _ => 0, s)) (fun _ _ => [])
        (fun _ _ => none) id [] 0 .mean 3 0 :=
  C7_null_models_deterministic (fun _ => ()) (fun s l => (l, s))
    (fun s => (fun _ _ => 0, s)) (fun _ _ => []) (fun _ _ => none) id [] 0 .mean
    5 3 0 0 rfl

/-! ## `data.py` — material filtering and per-element aggregation -/

/-- One material-level row with the columns `aggregate_element_table`
reads; `none` is a missing (NaN) cell.  The four prime fields are typed
into the row, so the source's "Missing required prime column" error
cannot arise in this embedding. -/
structure MaterialRow where
  carrier_element : Option String
  carrier_block : Option String
  include_study04 : Option ℚ
  primes : Fin 4 → Option ℚ
  carrier_Z : Option ℚ
  carrier_group : Option ℚ
  carrier_period : Option ℚ

/-- `filter_included_rows` (`data.py:94-101`): keep rows flagged
`include_study04 == 1` with non-null carrier element and block. -/
def filter_included_rows (rows : List MaterialRow) : List MaterialRow :=
  rows.filter (fun r => decide (r.include_study04 = some 1) &&
    r.carrier_element.isSome && r.carrier_block.isSome)

/-- pandas `mode().iloc[0]` over the non-null values
(`_coerce_optional_mode`, `data.py:111-116`): the smallest among the most
frequent values; `none` when every value is missing. -/
def modeQ (l : List ℚ) : Option ℚ :=
  match sortQ l.dedup with
  | [] => none
  | c :: cs => some (cs.foldl (fun best v =>
      if (l.countP (fun x => decide (x = best))) < (l.countP (fun x => decide (x = v)))
      then v else best) c)

/-- The four prime column names. -/
def primeName : Fin 4 → String
  | 0 => "e2"
  | 1 => "e3"
  | 2 => "e5"
  | 3 => "e7"

/-- One output row of `aggregate_element_table`.  `prime_var` holds the
square of the sample standard deviation `{p}_std` (the float square root
does not live in ℚ); it is `none` when fewer than two values remain,
matching the NaN that `std(ddof=1)` yields there. -/
structure ElementRecord where
  element : String
  block : String
  n_materials : ℕ
  Z : Option ℚ
  group : Option ℚ
  period : Option ℚ
  prime_mean : Fin 4 → Option ℚ
  prime_median : Fin 4 → Option ℚ
  prime_var : Fin 4 → Option ℚ

/-- `group[prime].abs().dropna()` for one group and component. -/
def primeVals (grp : List MaterialRow) (i : Fin 4) : List ℚ :=
  (grp.filterMap (fun r => r.primes i)).map (fun v => |v|)

def mkElementRecord (k : String) (b : String) (grp : List MaterialRow) :
    ElementRecord :=
  { element := k
    block := b
    n_materials := grp.length
    Z := medianQ (grp.filterMap (fun r => r.carrier_Z))
    group := modeQ (grp.filterMap (fun r => r.carrier_group))
    period := modeQ (grp.filterMap (fun r => r.carrier_period))
    prime_mean := fun i => if (primeVals grp i).length = 0 then none
      else some (listMean (primeVals grp i))
    prime_median := fun i => medianQ (primeVals grp i)
    prime_var := fun i => if (primeVals grp i).length < 2 then none
      else some (listVar1 (primeVals grp i)) }

/-- The missing-component warnings one group contributes
(`warnings.append` in the prime loop). -/
def warnsFor (k : String) (grp : List MaterialRow) : List String :=
  (List.finRange 4).filterMap (fun i =>
    if (primeVals grp i).isEmpty
    then some ("No valid values for " ++ primeName i ++ " in element " ++ k ++
      "; filling with NaN.")
    else none)

/-- The groupby loop of `aggregate_element_table` (`data.py:133-173`):
per carrier element, the distinct non-null block labels must number
exactly one (fatal `ValueError` otherwise), then the record is built.
pandas iterates groups in sorted key order; here the key list is passed
in, and its order affects only row order and which inconsistent element
is reported first, not the claims below. -/
def aggGroups : List String → List MaterialRow →
    Except String (List ElementRecord × List String)
  | [], _ => .ok ([], [])
  | k :: ks, filtered =>
    if ((filtered.filter (fun r => decide (r.carrier_element = some k))).filterMap
        (fun r => r.carrier_block)).dedup.length ≠ 1 then
      .error ("Carrier block not unique for element " ++ k)
    else
      match aggGroups ks filtered with
      | .error e => .error e
      | .ok (recs, warns) =>
        .ok (mkElementRecord k
            (((filtered.filter (fun r => decide (r.carrier_element = some k))).filterMap
              (fun r => r.carrier_block)).dedup.headD "")
            (filtered.filter (fun r => decide (r.carrier_element = some k))) :: recs,
          warnsFor k (filtered.filter (fun r => decide (r.carrier_element = some k)))
            ++ warns)

/-- `AggregationResult` (`data.py:22-25`). -/
structure AggregationResult where
  table : List ElementRecord
  warnings : List String

/-- `aggregate_element_table` (`data.py:119-186`): fatal on an empty
filtered set, then the per-element group loop. -/
def aggregate_element_table (rows : List MaterialRow) :
    Except String AggregationResult :=
  if (filter_included_rows rows).isEmpty then
    .error "No rows satisfy include_study04 == 1 with valid carriers."
  else
    match aggGroups ((filter_included_rows rows).filterMap
        (fun r => r.carrier_element)).dedup (filter_included_rows rows) with
    | .error e => .error e
    | .ok (recs, warns) => .ok { table := recs, warnings := warns }

/-! ### Claim C9: block-label uniqueness is fatal -/

theorem two_le_length_of_mem_ne {α : Type} (l : List α) (a b : α)
    (ha : a ∈ l) (hb : b ∈ l) (hab : a ≠ b) : 2 ≤ l.length := by
  match l with
  | [] => cases ha
  | [x] =>
    rw [List.mem_singleton] at ha hb
    exact absurd (ha.trans hb.symm) hab
  | x :: y :: t => simp

theorem dedup_eq_singleton (l : List String) (b : String) (hne : l ≠ [])
    (hall : ∀ x ∈ l, x = b) : l.dedup = [b] := by
  induction l with
  | nil => exact absurd rfl hne
  | cons x t ih =>
    have hx : x = b := hall x (List.mem_cons_self _ _)
    subst hx
    cases t with
    | nil => simp
    | cons y t' =>
      have hall' : ∀ z ∈ y :: t', z = x := fun z hz => hall z (List.mem_cons_of_mem _ hz)
      have hd : (y :: t').dedup = [x] := ih (by simp) hall'
      have hmem : x ∈ y :: t' := by
        rw [← hall' y (List.mem_cons_self _ _)]
        exact List.mem_cons_self _ _
      rw [List.dedup_cons_of_mem hmem, hd]

theorem aggGroups_error (ks : List String) (filtered : List MaterialRow) (k : String)
    (hk : k ∈ ks)
    (hbad : 2 ≤ ((filtered.filter (fun r => decide (r.carrier_element = some k))).filterMap
      (fun r => r.carrier_block)).dedup.length) :
    ∃ msg, aggGroups ks filtered = .error msg := by
  induction ks with
  | nil => cases hk
  | cons k0 ks ih =>
    by_cases hb0 : ((filtered.filter (fun r =>
        decide (r.carrier_element = some k0))).filterMap
        (fun r => r.carrier_block)).dedup.length ≠ 1
    · refine ⟨"Carrier block not unique for element " ++ k0, ?_⟩
      simp only [aggGroups]
      rw [if_pos hb0]
    · rcases List.mem_cons.mp hk with rfl | hk'
      · have hlen := not_ne_iff.mp hb0
        omega
      · obtain ⟨msg, hmsg⟩ := ih hk'
        refine ⟨msg, ?_⟩
        simp only [aggGroups]
        rw [if_neg hb0, hmsg]

theorem aggGroups_ok (ks : List String) (filtered : List MaterialRow)
    (hblocks : ∀ r ∈ filtered, (r.carrier_block).isSome)
    (hkeys : ∀ k ∈ ks, ∃ r ∈ filtered, r.carrier_element = some k)
    (huniq : ∀ r1 ∈ filtered, ∀ r2 ∈ filtered,
      r1.carrier_element = r2.carrier_element → r1.carrier_block = r2.carrier_block) :
    ∃ recs warns, aggGroups ks filtered = .ok (recs, warns) ∧
      ∀ rec ∈ recs, ∀ r ∈ filtered, r.carrier_element = some rec.element →
        r.carrier_block = some rec.block := by
  induction ks with
  | nil => exact ⟨[], [], rfl, by simp⟩
  | cons k ks ih =>
    obtain ⟨r0, hr0, hr0k⟩ := hkeys k (List.mem_cons_self _ _)
    obtain ⟨b0, hb0⟩ := Option.isSome_iff_exists.mp (hblocks r0 hr0)
    have hr0grp : r0 ∈ filtered.filter (fun r => decide (r.carrier_element = some k)) :=
      List.mem_filter.mpr ⟨hr0, by simp [hr0k]⟩
    have hblist : ∀ x ∈ (filtered.filter (fun r =>
        decide (r.carrier_element = some k))).filterMap (fun r => r.carrier_block),
        x = b0 := by
      intro x hx
      obtain ⟨r, hrgrp, hrb⟩ := List.mem_filterMap.mp hx
      have hrf : r ∈ filtered := (List.mem_filter.mp hrgrp).1
      have hrk : r.carrier_element = some k := by
        have := (List.mem_filter.mp hrgrp).2
        simpa using this
      have huq := huniq r hrf r0 hr0 (by rw [hrk, hr0k])
      rw [hrb, hb0] at huq
      exact Option.some_inj.mp huq
    have hbne : (filtered.filter (fun r =>
        decide (r.carrier_element = some k))).filterMap (fun r => r.carrier_block) ≠ [] := by
      intro hempty
      have hmem : b0 ∈ (filtered.filter (fun r =>
          decide (r.carrier_element = some k))).filterMap (fun r => r.carrier_block) :=
        List.mem_filterMap.mpr ⟨r0, hr0grp, hb0⟩
      rw [hempty] at hmem
      cases hmem
    have hded : ((filtered.filter (fun r =>
        decide (r.carrier_element = some k))).filterMap
        (fun r => r.carrier_block)).dedup = [b0] :=
      dedup_eq_singleton _ b0 hbne hblist
    obtain ⟨recs, warns, hok, hprop⟩ :=
      ih (fun k' hk' => hkeys k' (List.mem_cons_of_mem _ hk'))
    refine ⟨mkElementRecord k (((filtered.filter (fun r =>
        decide (r.carrier_element = some k))).filterMap
        (fun r => r.carrier_block)).dedup.headD "")
        (filtered.filter (fun r => decide (r.carrier_element = some k))) :: recs,
      warnsFor k (filtered.filter (fun r => decide (r.carrier_element = some k)))
        ++ warns, ?_, ?_⟩
    · simp only [aggGroups]
      rw [if_neg (by rw [hded]; simp), hok]
    · intro rec hrec r hr hre
      rcases List.mem_cons.mp hrec with rfl | hrec'
      · show r.carrier_block = some (((filtered.filter (fun r =>
          decide (r.carrier_element = some k))).filterMap
          (fun r => r.carrier_block)).dedup.headD "")
        have hrb : r.carrier_block = some b0 := by
          have huq := huniq r hr r0 hr0 (by rw [hre, hr0k]; rfl)
          rw [hb0] at huq
          exact huq
        rw [hrb, hded]
        rfl
      · exact hprop rec hrec' r hr hre

theorem filter_included_isSome (rows : List MaterialRow) :
    ∀ r ∈ filter_included_rows rows,
      (r.carrier_element).isSome ∧ (r.carrier_block).isSome := by
  intro r hr
  have h := (List.mem_filter.mp hr).2
  simp only [Bool.and_eq_true, decide_eq_true_eq] at h
  exact ⟨h.1.2, h.2⟩

/-- C9: aggregation fails with an error whenever some carrier element has
two included materials with distinct block labels; and when every carrier
element's included materials agree on the block, aggregation succeeds and
each output row carries that unique block label. -/
theorem C9_block_label_uniqueness (rows : List MaterialRow) :
    ((∃ k, ∃ r1 ∈ filter_included_rows rows, ∃ r2 ∈ filter_included_rows rows,
        r1.carrier_element = some k ∧ r2.carrier_element = some k ∧
        r1.carrier_block ≠ r2.carrier_block) →
      ∃ msg, aggregate_element_table rows = .error msg) ∧
    (filter_included_rows rows ≠ [] →
      (∀ r1 ∈ filter_included_rows rows, ∀ r2 ∈ filter_included_rows rows,
        r1.carrier_element = r2.carrier_element →
        r1.carrier_block = r2.carrier_block) →
      ∃ result, aggregate_element_table rows = .ok result ∧
        ∀ rec ∈ result.table, ∀ r ∈ filter_included_rows rows,
          r.carrier_element = some rec.element → r.carrier_block = some rec.block) := by
  constructor
  · intro ⟨k, r1, hr1, r2, hr2, he1, he2, hbne⟩
    obtain ⟨b1, hb1⟩ := Option.isSome_iff_exists.mp (filter_included_isSome rows r1 hr1).2
    obtain ⟨b2, hb2⟩ := Option.isSome_iff_exists.mp (filter_included_isSome rows r2 hr2).2
    have hg1 : r1 ∈ (filter_included_rows rows).filter (fun r =>
        decide (r.carrier_element = some k)) := List.mem_filter.mpr ⟨hr1, by simp [he1]⟩
    have hg2 : r2 ∈ (filter_included_rows rows).filter (fun r =>
        decide (r.carrier_element = some k)) := List.mem_filter.mpr ⟨hr2, by simp [he2]⟩
    have hm1 : b1 ∈ ((filter_included_rows rows).filter (fun r =>
        decide (r.carrier_element = some k))).filterMap (fun r => r.carrier_block) :=
      List.mem_filterMap.mpr ⟨r1, hg1, hb1⟩
    have hm2 : b2 ∈ ((filter_included_rows rows).filter (fun r =>
        decide (r.carrier_element = some k))).filterMap (fun r => r.carrier_block) :=
      List.mem_filterMap.mpr ⟨r2, hg2, hb2⟩
    have hb12 : b1 ≠ b2 := by
      intro hbeq
      apply hbne
      rw [hb1, hb2, hbeq]
    have hbad : 2 ≤ (((filter_included_rows rows).filter (fun r =>
        decide (r.carrier_element = some k))).filterMap
        (fun r => r.carrier_block)).dedup.length :=
      two_le_length_of_mem_ne _ b1 b2 (List.mem_dedup.mpr hm1) (List.mem_dedup.mpr hm2)
        hb12
    have hkmem : k ∈ ((filter_included_rows rows).filterMap
        (fun r => r.carrier_element)).dedup :=
      List.mem_dedup.mpr (List.mem_filterMap.mpr ⟨r1, hr1, he1⟩)
    obtain ⟨msg, hmsg⟩ := aggGroups_error _ (filter_included_rows rows) k hkmem hbad
    refine ⟨msg, ?_⟩
    unfold aggregate_element_table
    rw [if_neg (by simp [List.isEmpty_iff]; intro hnil; rw [hnil] at hr1; cases hr1),
      hmsg]
  · intro hne huniq
    obtain ⟨recs, warns, hok, hprop⟩ := aggGroups_ok
      ((filter_included_rows rows).filterMap (fun r => r.carrier_element)).dedup
      (filter_included_rows rows)
      (fun r hr => (filter_included_isSome rows r hr).2)
      (fun k hk => by
        obtain ⟨r, hr, hre⟩ := List.mem_filterMap.mp (List.mem_dedup.mp hk)
        exact ⟨r, hr, hre⟩)
      huniq
    refine ⟨{ table := recs, warnings := warns }, ?_, hprop⟩
    unfold aggregate_element_table
    rw [if_neg (by simpa [List.isEmpty_iff] using hne), hok]

/-- A demo material row. -/
def demoMat (e b : String) : MaterialRow :=
  { carrier_element := some e, carrier_block := some b, include_study04 := some 1,
    primes := fun _ => some 1, carrier_Z := none, carrier_group := none,
    carrier_period := none }

theorem C9_block_label_uniqueness_witness :
    (∃ msg, aggregate_element_table [demoMat "A" "d", demoMat "A" "p"] = .error msg) ∧
    (∃ result, aggregate_element_table [demoMat "A" "d"] = .ok result ∧
      ∀ rec ∈ result.table, ∀ r ∈ filter_included_rows [demoMat "A" "d"],
        r.carrier_element = some rec.element → r.carrier_block = some rec.block) := by
  have hmem1 : demoMat "A" "d" ∈ filter_included_rows [demoMat "A" "d", demoMat "A" "p"] :=
    List.mem_filter.mpr ⟨by simp, by simp [demoMat]⟩
  have hmem2 : demoMat "A" "p" ∈ filter_included_rows [demoMat "A" "d", demoMat "A" "p"] :=
    List.mem_filter.mpr ⟨by simp, by simp [demoMat]⟩
  constructor
  · exact (C9_block_label_uniqueness [demoMat "A" "d", demoMat "A" "p"]).1
      ⟨"A", demoMat "A" "d", hmem1, demoMat "A" "p", hmem2, rfl, rfl, by simp [demoMat]⟩
  · refine (C9_block_label_uniqueness [demoMat "A" "d"]).2 ?_ ?_
    · intro hnil
      have hm : demoMat "A" "d" ∈ filter_included_rows [demoMat "A" "d"] :=
        List.mem_filter.mpr ⟨by simp, by simp [demoMat]⟩
      rw [hnil] at hm
      cases hm
    · intro r1 h1 r2 h2 _
      have e1 : r1 = demoMat "A" "d" := by
        have := (List.mem_filter.mp h1).1
        simpa using this
      have e2 : r2 = demoMat "A" "d" := by
        have := (List.mem_filter.mp h2).1
        simpa using this
      rw [e1, e2]

end Study04
